import Mathlib

/-!
# Verification of the one-schema schema-transformation engine

This file gives a shallow embedding, in Lean 4, of the core schema
transformation and code-generation engine of the `one-schema` TypeScript
repository, and proves (or refutes) the frozen specification claims about
it.

Modelling conventions:

* JSON-Schema-like nodes (`JSONSchema4` in the source) are modelled by the
  inductive `JSONSchema` below, restricted to exactly the fields the engine
  reads or writes (`type`, `$ref`, `description`, `title`, `optional`,
  `additionalProperties`, `enum`, `required`, `properties`, `items`,
  `anyOf`, `oneOf`, `allOf`, `definitions`).  A JavaScript object key that
  is absent (or `undefined`, which JSON serialization drops) is `none`.
* JavaScript objects used as ordered string-keyed maps are modelled as
  association lists `List (String × _)`, preserving insertion order,
  mirroring JS object key order for string keys.
* `deepCopy` (`JSON.parse(JSON.stringify(x))`) is the identity on this
  model: the model has no `undefined`-valued keys and no aliasing.
* JavaScript exceptions (`throw new Error(...)`) are modelled with
  `Except`: a thrown error is `.error e`.
* The reference resolver recurses without any cycle detection and hence
  does not terminate on cyclic reference graphs; it is modelled with an
  explicit fuel parameter, where exhausting any amount of fuel corresponds
  to divergence of the JS original.
-/

/-- A JSON-Schema node (`JSONSchema4` in the source), restricted to the
fields the one-schema engine reads or writes.  `none` models an absent
key. -/
inductive JSONSchema where
  | mk
      (type : Option String)
      (ref : Option String)
      (description : Option String)
      (title : Option String)
      (optional : Option Bool)
      (additionalProperties : Option Bool)
      (enum : Option (List String))
      (required : Option (List String))
      (properties : Option (List (String × JSONSchema)))
      (items : Option (JSONSchema ⊕ List JSONSchema))
      (anyOf : Option (List JSONSchema))
      (oneOf : Option (List JSONSchema))
      (allOf : Option (List JSONSchema))
      (definitions : Option (List (String × JSONSchema)))

namespace JSONSchema

/-- The `type` field of a schema node. -/
def type : JSONSchema → Option String
  | .mk t _ _ _ _ _ _ _ _ _ _ _ _ _ => t

/-- The `$ref` field of a schema node. -/
def ref : JSONSchema → Option String
  | .mk _ r _ _ _ _ _ _ _ _ _ _ _ _ => r

/-- The `description` field of a schema node. -/
def description : JSONSchema → Option String
  | .mk _ _ d _ _ _ _ _ _ _ _ _ _ _ => d

/-- The `title` field of a schema node. -/
def title : JSONSchema → Option String
  | .mk _ _ _ ti _ _ _ _ _ _ _ _ _ _ => ti

/-- The custom `optional` marker field of a schema node. -/
def optional : JSONSchema → Option Bool
  | .mk _ _ _ _ o _ _ _ _ _ _ _ _ _ => o

/-- The `additionalProperties` field of a schema node. -/
def additionalProperties : JSONSchema → Option Bool
  | .mk _ _ _ _ _ a _ _ _ _ _ _ _ _ => a

/-- The `enum` field of a schema node. -/
def enum : JSONSchema → Option (List String)
  | .mk _ _ _ _ _ _ e _ _ _ _ _ _ _ => e

/-- The `required` field of a schema node. -/
def required : JSONSchema → Option (List String)
  | .mk _ _ _ _ _ _ _ r _ _ _ _ _ _ => r

/-- The `properties` field of a schema node. -/
def properties : JSONSchema → Option (List (String × JSONSchema))
  | .mk _ _ _ _ _ _ _ _ p _ _ _ _ _ => p

/-- The `items` field of a schema node: a single schema or a tuple list. -/
def items : JSONSchema → Option (JSONSchema ⊕ List JSONSchema)
  | .mk _ _ _ _ _ _ _ _ _ i _ _ _ _ => i

/-- The `anyOf` field of a schema node. -/
def anyOf : JSONSchema → Option (List JSONSchema)
  | .mk _ _ _ _ _ _ _ _ _ _ a _ _ _ => a

/-- The `oneOf` field of a schema node. -/
def oneOf : JSONSchema → Option (List JSONSchema)
  | .mk _ _ _ _ _ _ _ _ _ _ _ o _ _ => o

/-- The `allOf` field of a schema node. -/
def allOf : JSONSchema → Option (List JSONSchema)
  | .mk _ _ _ _ _ _ _ _ _ _ _ _ a _ => a

/-- The `definitions` field of a schema node. -/
def definitions : JSONSchema → Option (List (String × JSONSchema))
  | .mk _ _ _ _ _ _ _ _ _ _ _ _ _ d => d

/-- The empty schema node `{}`. -/
def empty : JSONSchema :=
  .mk none none none none none none none none none none none none none none

end JSONSchema

/-- `deepCopy` from `generate-endpoints.ts`
(`JSON.parse(JSON.stringify(obj))`).  On this model (no `undefined`-valued
keys, no aliasing) a JSON serialization round trip is the identity. -/
def deepCopy (s : JSONSchema) : JSONSchema := s

mutual

/-- `transformJSONSchema` from `json-schema.ts`: applies `transform` to
every node of `root`, children first (post-order); `properties`, `items`,
`anyOf`, `oneOf` and `allOf` are recursed into, all other fields (notably
`definitions` and `$ref`) are passed through untouched. -/
def transformJSONSchema (root : JSONSchema) (transform : JSONSchema → JSONSchema) :
    JSONSchema :=
  match root with
  | .mk ty rf ds ti op ap en rq props its ao oo alo defs =>
    deepCopy (transform (.mk ty rf ds ti op ap en rq
      (match props with
       | none => none
       | some l => some (transformProperties l transform))
      (match its with
       | none => none
       | some (.inl s) => some (.inl (transformJSONSchema s transform))
       | some (.inr l) => some (.inr (transformSchemaList l transform)))
      (match ao with | none => none | some l => some (transformSchemaList l transform))
      (match oo with | none => none | some l => some (transformSchemaList l transform))
      (match alo with | none => none | some l => some (transformSchemaList l transform))
      defs))

/-- Transforms each value of a `properties` map
(`Object.entries(copy.properties).reduce(...)` in the source). -/
def transformProperties (l : List (String × JSONSchema))
    (transform : JSONSchema → JSONSchema) : List (String × JSONSchema) :=
  match l with
  | [] => []
  | (name, s) :: rest =>
    (name, transformJSONSchema s transform) :: transformProperties rest transform

/-- Transforms each element of a schema list
(`copy.xs.map((schema) => transformJSONSchema(schema, transform))`). -/
def transformSchemaList (l : List JSONSchema)
    (transform : JSONSchema → JSONSchema) : List JSONSchema :=
  match l with
  | [] => []
  | s :: rest => transformJSONSchema s transform :: transformSchemaList rest transform

end


/-! ### Computable string helpers

The JavaScript string operations of the source (`split`, `startsWith`,
`endsWith`, `slice`, `replace`, `toLowerCase`, `toUpperCase`, `join`,
regex search) are modelled with structurally recursive functions over the
character list of a `String`, so that every definition evaluates inside
the kernel. -/

/-- Splitting accumulator: collects the current segment in reverse. -/
def splitOnCharAux (c : Char) : List Char → List Char → List String
  | [], acc => [String.mk acc.reverse]
  | x :: xs, acc =>
    if x = c then String.mk acc.reverse :: splitOnCharAux c xs []
    else splitOnCharAux c xs (x :: acc)

/-- JS `s.split(c)` for a one-character separator. -/
def splitOnChar (c : Char) (s : String) : List String :=
  splitOnCharAux c s.data []

/-- JS `s.startsWith(c)` for a one-character prefix. -/
def startsWithChar (c : Char) (s : String) : Bool :=
  match s.data with
  | [] => false
  | x :: _ => x = c

/-- JS `s.slice(1)`. -/
def dropFirstChar (s : String) : String := String.mk (s.data.drop 1)

/-- Errors thrown by the engine (`throw new Error(...)` in the source),
including `outOfFuel`, which marks a run of the reference resolver that
would diverge in JavaScript (the resolver has no cycle detection), and
`typeError`, which marks a JavaScript `TypeError` (indexing a missing
part of an endpoint key). -/
inductive OneSchemaError where
  | invalidSchema (message : String)
  | invalidRef (refString : String)
  | nonObjectRequest (endpoint : String)
  | parameterCollision (param : String) (endpoint : String)
  | typeError
  | outOfFuel
  | noOperationId
  | noSuccessResponse (operationId : String)
  | noJSONResponse (operationId : String)
  | noRequestBody (operationId : String)
  | noJSONRequestBody (operationId : String)
  deriving DecidableEq

/-- Association-list lookup, modelling JavaScript object property reads
(`obj[key]`, `undefined` when absent). -/
def lookupAssoc {α : Type _} (l : List (String × α)) (k : String) : Option α :=
  match l with
  | [] => none
  | (k', v) :: rest => if k' = k then some v else lookupAssoc rest k

/-- Association-list update, modelling JavaScript object property writes:
an existing key keeps its position and gets the new value, a new key is
appended (JS string-keyed insertion order). -/
def setAssoc {α : Type _} (l : List (String × α)) (k : String) (v : α) :
    List (String × α) :=
  match l with
  | [] => [(k, v)]
  | (k', v') :: rest => if k' = k then (k, v) :: rest else (k', v') :: setAssoc rest k v

mutual

/-- The Except-valued variant of `transformJSONSchema`, used to model the
reference resolver, whose transform can throw (`json-schema.ts`).  A
thrown JS exception propagates out of `transformJSONSchema`; evaluation
order matches the source object literal (`properties`, `items`, `anyOf`,
`oneOf`, `allOf`, then the transform itself). -/
def transformJSONSchemaE (root : JSONSchema)
    (transform : JSONSchema → Except OneSchemaError JSONSchema) :
    Except OneSchemaError JSONSchema :=
  match root with
  | .mk ty rf ds ti op ap en rq props its ao oo alo defs =>
    Except.bind
      (match props with
       | none => Except.ok none
       | some l => Except.map some (transformPropertiesE l transform))
      (fun props' =>
    Except.bind
      (match its with
       | none => Except.ok none
       | some (.inl s) => Except.map (fun x => some (.inl x)) (transformJSONSchemaE s transform)
       | some (.inr l) => Except.map (fun x => some (.inr x)) (transformSchemaListE l transform))
      (fun its' =>
    Except.bind
      (match ao with
       | none => Except.ok none
       | some l => Except.map some (transformSchemaListE l transform))
      (fun ao' =>
    Except.bind
      (match oo with
       | none => Except.ok none
       | some l => Except.map some (transformSchemaListE l transform))
      (fun oo' =>
    Except.bind
      (match alo with
       | none => Except.ok none
       | some l => Except.map some (transformSchemaListE l transform))
      (fun alo' =>
    transform (.mk ty rf ds ti op ap en rq props' its' ao' oo' alo' defs))))))

/-- Except-valued transform of a `properties` map. -/
def transformPropertiesE (l : List (String × JSONSchema))
    (transform : JSONSchema → Except OneSchemaError JSONSchema) :
    Except OneSchemaError (List (String × JSONSchema)) :=
  match l with
  | [] => Except.ok []
  | (name, s) :: rest =>
    Except.bind (transformJSONSchemaE s transform) (fun s' =>
    Except.bind (transformPropertiesE rest transform) (fun rest' =>
    Except.ok ((name, s') :: rest')))

/-- Except-valued transform of a schema list. -/
def transformSchemaListE (l : List JSONSchema)
    (transform : JSONSchema → Except OneSchemaError JSONSchema) :
    Except OneSchemaError (List JSONSchema) :=
  match l with
  | [] => Except.ok []
  | s :: rest =>
    Except.bind (transformJSONSchemaE s transform) (fun s' =>
    Except.bind (transformSchemaListE rest transform) (fun rest' =>
    Except.ok (s' :: rest')))

end

mutual

/-- All transformer-visible nodes of a schema tree (the node itself plus,
recursively, `properties` values, `items`, `anyOf`, `oneOf`, `allOf`
members — exactly the subtrees `transformJSONSchema` walks; `definitions`
is not walked). -/
def nodesList (s : JSONSchema) : List JSONSchema :=
  match s with
  | .mk ty rf ds ti op ap en rq props its ao oo alo defs =>
    .mk ty rf ds ti op ap en rq props its ao oo alo defs ::
      ((match props with
        | none => []
        | some l => nodesOfProperties l) ++
       (match its with
        | none => []
        | some (.inl x) => nodesList x
        | some (.inr l) => nodesOfList l) ++
       (match ao with | none => [] | some l => nodesOfList l) ++
       (match oo with | none => [] | some l => nodesOfList l) ++
       (match alo with | none => [] | some l => nodesOfList l))

/-- Transformer-visible nodes of all values of a `properties` map. -/
def nodesOfProperties (l : List (String × JSONSchema)) : List JSONSchema :=
  match l with
  | [] => []
  | (_, s) :: rest => nodesList s ++ nodesOfProperties rest

/-- Transformer-visible nodes of all members of a schema list. -/
def nodesOfList (l : List JSONSchema) : List JSONSchema :=
  match l with
  | [] => []
  | s :: rest => nodesList s ++ nodesOfList rest

end

/-- The raw `$ref` strings of all transformer-visible nodes of a tree. -/
def schemaRefs (s : JSONSchema) : List String :=
  (nodesList s).filterMap (fun n => n.ref)

/-- A schema tree is reference-free when no transformer-visible node
carries a `$ref`. -/
def refFree (s : JSONSchema) : Bool :=
  (nodesList s).all (fun n => n.ref = none)

/-- The resource name of a `$ref` string: `schema.$ref.split('/')[2]` in
`withResolvedDefinitions` (`json-schema.ts`); `""` models the absent
(`undefined`) index, which is falsy in JS exactly as the empty string
is. -/
def refResourceName (r : String) : String :=
  (splitOnChar '/' r).getD 2 ""

/-- The per-node transform of `withResolvedDefinitions`
(`json-schema.ts`): return non-`$ref` nodes unchanged (a falsy — empty —
`$ref` counts as absent), throw `Encountered an invalid ref` on an
unparsable or dangling ref, and otherwise resolve the referenced
resource with `recurse`. -/
def resolverStep (definitions : List (String × JSONSchema))
    (recurse : JSONSchema → Except OneSchemaError JSONSchema)
    (schema : JSONSchema) : Except OneSchemaError JSONSchema :=
  match schema.ref with
  | none => .ok schema
  | some r =>
    if r = "" then .ok schema
    else
      let resourceName := refResourceName r
      if resourceName = "" then .error (.invalidRef r)
      else
        match lookupAssoc definitions resourceName with
        | none => .error (.invalidRef r)
        | some resource => recurse resource

/-- `withResolvedDefinitions` from `json-schema.ts`: rewrites every `$ref`
node by looking the referenced name up in `definitions` and recursively
resolving the resolved resource.  The JS original recurses unboundedly
(no cycle detection); `fuel` bounds the ref-chain depth of the model, and
`.error .outOfFuel` stands for a JS run that would still be recursing. -/
def withResolvedDefinitions (fuel : Nat) (root : JSONSchema)
    (definitions : List (String × JSONSchema)) : Except OneSchemaError JSONSchema :=
  match fuel with
  | 0 => .error .outOfFuel
  | fuel + 1 =>
    transformJSONSchemaE root (resolverStep definitions
      (fun resource => withResolvedDefinitions fuel resource definitions))

/-- `getPathParams` from `meta-schema.ts`:
`name.split(' ')[1].split('/').filter(p => p.startsWith(':')).map(p => p.replace(':', ''))`.
`none` models the JS `TypeError` thrown when the endpoint key has no
second space-separated part.  `replace(':', '')` removes only the first
occurrence of `:`, which on a part that starts with `:` is exactly
dropping the leading character. -/
def getPathParams (name : String) : Option (List String) :=
  match (splitOnChar ' ' name).get? 1 with
  | none => none
  | some path =>
    some (((splitOnChar '/' path).filter (fun part => startsWithChar ':' part)).map
      dropFirstChar)

/-- `EndpointDefinition` from `types.ts`. -/
structure EndpointDefinition where
  Name : String
  Description : Option String := none
  Request : Option JSONSchema := none
  Response : JSONSchema

/-- `OneSchemaDefinition` from `types.ts`. -/
structure OneSchemaDefinition where
  Resources : Option (List (String × JSONSchema)) := none
  Endpoints : List (String × EndpointDefinition)

/-- The keys visible on `Object.prototype`, the prototype of the plain
objects `meta-schema.ts` manipulates: the JS `in` operator
(`param in (resolved.properties ?? {})` in `validateSchema`) consults
the prototype chain, so each of these names tests positive on every
plain object, declared properties or not. -/
def OBJECT_PROTOTYPE_KEYS : List String :=
  ["constructor", "hasOwnProperty", "isPrototypeOf", "propertyIsEnumerable",
   "toLocaleString", "toString", "valueOf", "__defineGetter__",
   "__defineSetter__", "__lookupGetter__", "__lookupSetter__", "__proto__"]

/-- The Ajv check of `ONE_SCHEMA_META_SCHEMA` (`meta-schema.ts`),
specialized to this typed model.  The structural constraints of the meta
schema (top level has only `Resources`/`Endpoints`, every endpoint is an
object with `Name` and `Response`, resources and request/response
schemas are objects) hold by construction of `OneSchemaDefinition`; what
remains is the `Name` pattern `[a-zA-Z0-9]+`, which Ajv applies
unanchored (RegExp search), so it demands only that `Name` contain at
least one alphanumeric character, and the per-endpoint
`additionalProperties: false` — the endpoint entries declare only
`Name`, `Request` and `Response`, so an endpoint carrying a
`Description` key fails the meta-schema check. -/
def metaSchemaCheck (spec : OneSchemaDefinition) : Bool :=
  spec.Endpoints.all (fun e =>
    e.2.Name.data.any Char.isAlphanum && e.2.Description.isNone)

/-- Fuel that suffices to resolve any acyclic chain of `$ref`s against
`resources`: an acyclic chain visits pairwise distinct resource names, so
its length is at most `resources.length`. -/
def resolutionFuel (resources : List (String × JSONSchema)) : Nat :=
  resources.length + 1

/-- The per-endpoint loop of `validateSchema` (`meta-schema.ts`): for
every endpoint with a (truthy) `Request`, resolve its `$ref`s, require
the resolved `type`, when present and truthy, to be `"object"`, and
check `getPathParams(name).find(param => param in (resolved.properties ?? {}))`.
The JS `in` operator consults the prototype chain, so a parameter is
`in` the properties object when it is a declared property name or an
`Object.prototype` key; and the guard `if (collidingParam)` is falsy
both when `find` misses (`undefined`) and when the first colliding
parameter is the empty string, so only a non-empty first collider
throws.  An `Error` aborts the whole loop. -/
def validateEndpoints (resources : List (String × JSONSchema)) (fuel : Nat) :
    List (String × EndpointDefinition) → Except OneSchemaError Unit
  | [] => .ok ()
  | (name, e) :: rest =>
    match e.Request with
    | none => validateEndpoints resources fuel rest
    | some req =>
      Except.bind (withResolvedDefinitions fuel req resources) (fun resolved =>
        if (match resolved.type with
            | some ty => ty ≠ "" && ty ≠ "object"
            | none => false) then
          .error (.nonObjectRequest name)
        else
          match getPathParams name with
          | none => .error .typeError
          | some params =>
            match params.find? (fun param =>
                (resolved.properties.getD []).any (fun p => p.1 == param) ||
                OBJECT_PROTOTYPE_KEYS.contains param) with
            | some collidingParam =>
              if collidingParam = "" then validateEndpoints resources fuel rest
              else .error (.parameterCollision collidingParam name)
            | none => validateEndpoints resources fuel rest)

/-- `validateSchema` from `meta-schema.ts`: the Ajv meta-schema check,
then the per-endpoint request checks in declaration order. -/
def validateSchema (spec : OneSchemaDefinition) : Except OneSchemaError Unit :=
  if metaSchemaCheck spec then
    validateEndpoints (spec.Resources.getD []) (resolutionFuel (spec.Resources.getD []))
      spec.Endpoints
  else .error (.invalidSchema "Detected invalid schema")

/-- Replaces the `additionalProperties` field of a node
(`{ additionalProperties: false, ...schema }` style spreads). -/
def JSONSchema.setAdditionalProperties : JSONSchema → Option Bool → JSONSchema
  | .mk ty rf ds ti op _ en rq props its ao oo alo defs, a =>
    .mk ty rf ds ti op a en rq props its ao oo alo defs

/-- Replaces the `required` field of a node. -/
def JSONSchema.setRequired : JSONSchema → Option (List String) → JSONSchema
  | .mk ty rf ds ti op ap en _ props its ao oo alo defs, r =>
    .mk ty rf ds ti op ap en r props its ao oo alo defs

/-- Replaces the `optional` marker field of a node. -/
def JSONSchema.setOptionalMarker : JSONSchema → Option Bool → JSONSchema
  | .mk ty rf ds ti _ ap en rq props its ao oo alo defs, o =>
    .mk ty rf ds ti o ap en rq props its ao oo alo defs

/-- One application of a transform to a whole endpoint inside
`transformOneSchema` (`meta-schema.ts`): an absent `Request` is
defaulted to the empty schema (`copy.Endpoints[key].Request ?? {}`)
before the transform, so after any pass `Request` is always present. -/
def transformEndpoint (t : JSONSchema → JSONSchema) (e : EndpointDefinition) :
    EndpointDefinition :=
  { e with
    Request := some (transformJSONSchema (e.Request.getD JSONSchema.empty) t)
    Response := transformJSONSchema e.Response t }

/-- One full pass of `transformOneSchema` (`meta-schema.ts`) with a single
transform: every resource and every endpoint's `Request`/`Response` is
rewritten (an absent `Resources` iterates nothing, as JS `for..in` over
`undefined` does). -/
def transformOneSchemaOnce (spec : OneSchemaDefinition) (t : JSONSchema → JSONSchema) :
    OneSchemaDefinition :=
  { Resources := spec.Resources.map (List.map (fun p => (p.1, transformJSONSchema p.2 t)))
    Endpoints := spec.Endpoints.map (fun p => (p.1, transformEndpoint t p.2)) }

/-- `transformOneSchema` from `meta-schema.ts`: each transform is fully
completed over the whole (deep-copied) schema before the next begins. -/
def transformOneSchema (spec : OneSchemaDefinition)
    (transforms : List (JSONSchema → JSONSchema)) : OneSchemaDefinition :=
  transforms.foldl transformOneSchemaOnce spec

/-- `SchemaAssumptions` from `meta-schema.ts`. -/
structure SchemaAssumptions where
  noAdditionalPropertiesOnObjects : Bool
  objectPropertiesRequiredByDefault : Bool
  deriving DecidableEq

/-- `DEFAULT_ASSUMPTIONS` from `meta-schema.ts`: both flags enabled. -/
def DEFAULT_ASSUMPTIONS : SchemaAssumptions :=
  { noAdditionalPropertiesOnObjects := true
    objectPropertiesRequiredByDefault := true }

/-- The `noAdditionalPropertiesOnObjects` transform of `withAssumptions`:
`schema.type === 'object' ? { additionalProperties: false, ...schema } : schema`.
The spread puts the existing fields after the default, so a node that
already declares `additionalProperties` keeps its declaration. -/
def noAdditionalPropertiesTransform (schema : JSONSchema) : JSONSchema :=
  if schema.type = some "object" then
    match schema.additionalProperties with
    | some _ => schema
    | none => schema.setAdditionalProperties (some false)
  else schema

/-- The first `objectPropertiesRequiredByDefault` transform of
`withAssumptions`: on a node with `type: 'object'` and a (truthy, i.e.
present) `properties` map, default `required` to the names of the
properties whose schema does not carry `optional: true`
(`properties[name].optional !== true`); the trailing spread keeps an
explicitly declared `required` list untouched. -/
def objectPropertiesRequiredTransform (schema : JSONSchema) : JSONSchema :=
  if schema.type = some "object" ∧ schema.properties.isSome then
    match schema.required with
    | some _ => schema
    | none =>
      schema.setRequired (some
        (((schema.properties.getD []).filter
          (fun p => p.2.optional ≠ some true)).map (fun p => p.1)))
  else schema

/-- The second `objectPropertiesRequiredByDefault` transform of
`withAssumptions`: `deepCopy({ ...schema, optional: undefined })` prunes
the `optional` marker from every node. -/
def pruneOptionalTransform (schema : JSONSchema) : JSONSchema :=
  schema.setOptionalMarker none

/-- `withAssumptions` from `meta-schema.ts`.  `overrides` is a full
`SchemaAssumptions` record, so `{ ...DEFAULT_ASSUMPTIONS, ...overrides }`
equals `overrides`. -/
def withAssumptions (spec : OneSchemaDefinition)
    (overrides : SchemaAssumptions := DEFAULT_ASSUMPTIONS) : OneSchemaDefinition :=
  let copy := spec
  let assumptions := overrides
  let copy :=
    if assumptions.noAdditionalPropertiesOnObjects then
      transformOneSchema copy [noAdditionalPropertiesTransform]
    else copy
  let copy :=
    if assumptions.objectPropertiesRequiredByDefault then
      transformOneSchema copy [objectPropertiesRequiredTransform, pruneOptionalTransform]
    else copy
  copy

/-- A document as parsed by `js-yaml` in `loadSchemaFromFile`
(`meta-schema.ts`): either a plain contract, or an introspection response
`{ schema, serviceVersion }`, detected by the presence of a `schema`
key. -/
inductive LoadedDocument where
  | contract (spec : OneSchemaDefinition)
  | introspection (schema : OneSchemaDefinition) (serviceVersion : String)

/-- `loadSchemaFromFile` from `meta-schema.ts`, modelled from the parsed
document onward (file reading and YAML parsing are out of scope): unwrap
an introspection response, validate, then apply `withAssumptions` —
unconditionally, also on unwrapped introspection responses. -/
def loadSchemaFromFile (doc : LoadedDocument)
    (assumptions : SchemaAssumptions := DEFAULT_ASSUMPTIONS) :
    Except OneSchemaError OneSchemaDefinition :=
  let spec :=
    match doc with
    | .contract s => s
    | .introspection s _ => s
  Except.bind (validateSchema spec) (fun _ => .ok (withAssumptions spec assumptions))

/-- Replaces the `properties` field of a node. -/
def JSONSchema.setProperties : JSONSchema → Option (List (String × JSONSchema)) → JSONSchema
  | .mk ty rf ds ti op ap en rq _ its ao oo alo defs, p =>
    .mk ty rf ds ti op ap en rq p its ao oo alo defs

/-- The schema node `{ type: 'string' }`. -/
def stringTypeSchema : JSONSchema :=
  .mk (some "string") none none none none none none none none none none none none none

/-- The `PathParams` schema built by `generateEndpointTypes`
(`generate-endpoints.ts`): a closed object whose required properties are
exactly the endpoint key's path parameters, each string-typed. -/
def pathParamsSchema (params : List String) : JSONSchema :=
  .mk (some "object") none none none none (some false) none (some params)
    (some (params.foldl (fun accum name => setAssoc accum name stringTypeSchema) []))
    none none none none none

/-- The per-endpoint entry of the `masterSchema` of `generateEndpointTypes`
(`generate-endpoints.ts`): a closed object with the three required
sub-properties `Request` (defaulted to `{}` when absent), `PathParams`
and `Response`, carrying the endpoint's `Description`. -/
def endpointEntrySchema (e : EndpointDefinition) (params : List String) : JSONSchema :=
  .mk (some "object") none e.Description none none (some false) none
    (some ["Request", "PathParams", "Response"])
    (some [("Request", e.Request.getD JSONSchema.empty),
           ("PathParams", pathParamsSchema params),
           ("Response", e.Response)])
    none none none none none

/-- The initial accumulator of the `masterSchema` reduce
(`generate-endpoints.ts`): `definitions: Resources`, `title: 'Endpoints'`,
a closed object with one required name per endpoint key. -/
def masterSchemaInit (spec : OneSchemaDefinition) : JSONSchema :=
  .mk (some "object") none none (some "Endpoints") none (some false) none
    (some (spec.Endpoints.map (fun p => p.1)))
    (some [])
    none none none none spec.Resources

/-- The `masterSchema` reduce loop of `generateEndpointTypes`
(`generate-endpoints.ts`): one `properties` entry per endpoint key.
`none` models the JS `TypeError` of `getPathParams` on a key without a
space. -/
def masterSchemaLoop :
    List (String × EndpointDefinition) → JSONSchema → Option JSONSchema
  | [], accum => some accum
  | (key, e) :: rest, accum =>
    match getPathParams key with
    | none => none
    | some params =>
      masterSchemaLoop rest
        (accum.setProperties
          (some (setAssoc (accum.properties.getD []) key (endpointEntrySchema e params))))

/-- The `masterSchema` value built by `generateEndpointTypes`
(`generate-endpoints.ts`): the composite schema handed to the external
schema-to-TypeScript compiler.  (The subsequent `compile` call and the
regex post-processing of its output are external and out of scope.) -/
def masterSchema (spec : OneSchemaDefinition) : Option JSONSchema :=
  masterSchemaLoop spec.Endpoints (masterSchemaInit spec)

mutual

/-- Applies a string substitution to every string of a serialized schema
tree — every field of every node, including `definitions` subtrees,
property names, `enum` members and `required` names — modelling a global
`.replace` over `JSON.stringify` output (assuming, as the source does,
that the substitution never collides with JSON delimiters). -/
def mapSchemaStrings (f : String → String) (s : JSONSchema) : JSONSchema :=
  match s with
  | .mk ty rf ds ti op ap en rq props its ao oo alo defs =>
    .mk (ty.map f) (rf.map f) (ds.map f) (ti.map f) op ap
      (en.map (List.map f)) (rq.map (List.map f))
      (match props with
       | none => none
       | some l => some (mapPropertiesStrings f l))
      (match its with
       | none => none
       | some (.inl x) => some (.inl (mapSchemaStrings f x))
       | some (.inr l) => some (.inr (mapSchemaListStrings f l)))
      (match ao with | none => none | some l => some (mapSchemaListStrings f l))
      (match oo with | none => none | some l => some (mapSchemaListStrings f l))
      (match alo with | none => none | some l => some (mapSchemaListStrings f l))
      (match defs with
       | none => none
       | some l => some (mapPropertiesStrings f l))

/-- String substitution over a `properties`-style map (keys included). -/
def mapPropertiesStrings (f : String → String) (l : List (String × JSONSchema)) :
    List (String × JSONSchema) :=
  match l with
  | [] => []
  | (name, s) :: rest => (f name, mapSchemaStrings f s) :: mapPropertiesStrings f rest

/-- String substitution over a schema list. -/
def mapSchemaListStrings (f : String → String) (l : List JSONSchema) : List JSONSchema :=
  match l with
  | [] => []
  | s :: rest => mapSchemaStrings f s :: mapSchemaListStrings f rest

end

/-- The `required` list the specification prescribes for a node with the
given `type`, declared `required` and `properties`: on an object node
with a declared `properties` map, an explicit `required` list is kept,
and otherwise `required` becomes the names of the properties not marked
`optional: true`; all other nodes keep their `required` untouched. -/
def requiredDefaulted (ty : Option String) (rq : Option (List String))
    (props : Option (List (String × JSONSchema))) : Option (List String) :=
  if ty = some "object" ∧ props.isSome then
    match rq with
    | some r => some r
    | none =>
      some (((props.getD []).filter
        (fun p => p.2.optional ≠ some true)).map (fun p => p.1))
  else rq

mutual

/-- The specification's description of the `objectPropertiesRequiredByDefault`
pass, written as one recursive function, to be compared with the
source-derived two-pass composite
(`transformJSONSchema (transformJSONSchema s objectPropertiesRequiredTransform) pruneOptionalTransform`):
at every node whose `type` is `'object'` and whose `properties` map is
declared, `required` defaults to exactly the names of the properties
whose own (input) schema does not carry `optional: true`, unless the
node already declares an explicit `required` list, which is left
untouched; and the `optional` marker is stripped from every node.  (The
claim speaks of nodes with non-empty `properties`; the pass fires
whenever `properties` is declared, including declared-but-empty, a case
the claim leaves unspecified.) -/
def requiredByDefaultSpec (s : JSONSchema) : JSONSchema :=
  match s with
  | .mk ty rf ds ti _op ap en rq props its ao oo alo defs =>
    .mk ty rf ds ti none ap en
      (requiredDefaulted ty rq props)
      (match props with
       | none => none
       | some l => some (requiredByDefaultSpecProps l))
      (match its with
       | none => none
       | some (.inl x) => some (.inl (requiredByDefaultSpec x))
       | some (.inr l) => some (.inr (requiredByDefaultSpecList l)))
      (match ao with | none => none | some l => some (requiredByDefaultSpecList l))
      (match oo with | none => none | some l => some (requiredByDefaultSpecList l))
      (match alo with | none => none | some l => some (requiredByDefaultSpecList l))
      defs

/-- `requiredByDefaultSpec` over a `properties` map. -/
def requiredByDefaultSpecProps (l : List (String × JSONSchema)) :
    List (String × JSONSchema) :=
  match l with
  | [] => []
  | (name, s) :: rest => (name, requiredByDefaultSpec s) :: requiredByDefaultSpecProps rest

/-- `requiredByDefaultSpec` over a schema list. -/
def requiredByDefaultSpecList (l : List JSONSchema) : List JSONSchema :=
  match l with
  | [] => []
  | s :: rest => requiredByDefaultSpec s :: requiredByDefaultSpecList rest

end

/-- Replaces every endpoint's `Name` by `n` (used to show that
`validateSchema` does not inspect name distinctness). -/
def withEndpointNames (spec : OneSchemaDefinition) (n : String) : OneSchemaDefinition :=
  { spec with Endpoints := spec.Endpoints.map (fun p => (p.1, { p.2 with Name := n })) }

/-- A schema node carrying only a `$ref`. -/
def refOnlySchema (r : String) : JSONSchema :=
  .mk none (some r) none none none none none none none none none none none none

/-- An object schema node with the given `properties` and `required`. -/
def objectSchema (props : List (String × JSONSchema)) (req : Option (List String)) :
    JSONSchema :=
  .mk (some "object") none none none none none none req (some props)
    none none none none none

/-- The composite-schema fixture of the spec: one endpoint without path
parameters and one with a single path parameter. -/
def c2WitnessContract : OneSchemaDefinition :=
  { Resources := none
    Endpoints :=
      [("GET /posts", { Name := "getPosts", Response := JSONSchema.empty }),
       ("PUT /posts/:id", { Name := "putPost", Response := JSONSchema.empty })] }

/-- An endpoint whose key path parameter `id` collides with a `Request`
property, but whose `Request` also declares a non-object `type`: the
non-object check fires first, so the reported error does not name the
colliding parameter. -/
def c5Counterexample : OneSchemaDefinition :=
  { Resources := none
    Endpoints :=
      [("PUT posts/:id",
        { Name := "something"
          Request := some (.mk (some "string") none none none none none none none
            (some [("id", stringTypeSchema)]) none none none none none)
          Response := JSONSchema.empty })] }

/-- The claim's own collision example: endpoint key `PUT posts/:id` with
`Request.properties = { id, message }`. -/
def putPostsExample : OneSchemaDefinition :=
  { Resources := none
    Endpoints :=
      [("PUT posts/:id",
        { Name := "something"
          Request := some (objectSchema
            [("id", stringTypeSchema), ("message", stringTypeSchema)] none)
          Response := JSONSchema.empty })] }

/-- The truthiness-guard fixture: endpoint key `PUT posts/:/:id` has the
path parameters `""` and `"id"`, both declared as `Request` properties;
the first collider `find` returns is `""`, which `if (collidingParam)`
treats as falsy, so validation accepts the contract even though `id`
collides. -/
def c5EmptyParamExample : OneSchemaDefinition :=
  { Resources := none
    Endpoints :=
      [("PUT posts/:/:id",
        { Name := "something"
          Request := some (objectSchema
            [("", stringTypeSchema), ("id", stringTypeSchema)] none)
          Response := JSONSchema.empty })] }

/-- The prototype-chain fixture: the path parameter `toString` is `in`
the empty properties object through `Object.prototype`, so validation
rejects the endpoint although no request property is declared at all. -/
def c7ProtoExample : OneSchemaDefinition :=
  { Resources := none
    Endpoints :=
      [("GET /posts/:toString",
        { Name := "getPost"
          Request := some (objectSchema [] none)
          Response := JSONSchema.empty })] }

/-- The introspection fixture of `meta-schema.test.ts` (`does not apply
assumptions to introspection responses`). -/
def introspectionFixture : OneSchemaDefinition :=
  { Resources := none
    Endpoints :=
      [("GET /posts",
        { Name := "getPosts"
          Response := objectSchema [("something", stringTypeSchema)] none })] }

/-- A GET endpoint whose request declares an object-typed property
(not a string-compatible query value). -/
def c7Counterexample : OneSchemaDefinition :=
  { Resources := none
    Endpoints :=
      [("GET /posts",
        { Name := "getPosts"
          Request := some (objectSchema
            [("filter",
              .mk (some "object") none none none none none none none none
                none none none none none)] none)
          Response := JSONSchema.empty })] }

/-- Two distinct endpoints declaring the same `Name`. -/
def c8Counterexample : OneSchemaDefinition :=
  { Resources := none
    Endpoints :=
      [("GET /a", { Name := "foo", Response := JSONSchema.empty }),
       ("GET /b", { Name := "foo", Response := JSONSchema.empty })] }

/-- A contract with an endpoint that has no `Request` field. -/
def c9WitnessContract : OneSchemaDefinition :=
  { Resources := none
    Endpoints := [("POST /posts", { Name := "createPost", Response := JSONSchema.empty })] }

/-- An acyclic registry: the root references `B`, which is a plain
string schema. -/
def c10AcyclicDefs : List (String × JSONSchema) := [("B", stringTypeSchema)]

/-- A self-referencing registry: `A` references itself, so resolution
never terminates. -/
def c10CycleDefs : List (String × JSONSchema) := [("A", refOnlySchema "#/definitions/A")]

/-- A ranking function witnessing acyclicity of `c10AcyclicDefs`. -/
def c10Rank (n : String) : Nat := if n = "B" then 0 else 1

/-- All `$ref` strings of `s` resolve against `definitions` and their
resource names rank strictly below `bound`: the resolvability side of
acyclicity, phrased with an explicit ranking function. -/
def ResolvableFrom (definitions : List (String × JSONSchema)) (rank : String → Nat)
    (bound : Nat) (s : JSONSchema) : Prop :=
  ∀ r ∈ schemaRefs s, r ≠ "" ∧ refResourceName r ≠ "" ∧
    (∃ res, lookupAssoc definitions (refResourceName r) = some res) ∧
    rank (refResourceName r) < bound

/-- `rank` is a topological ranking of the reference graph of
`definitions`: every resource's refs resolve and point strictly downward
in rank.  A finite reference graph admits such a ranking exactly when it
is acyclic. -/
def RankedDefs (definitions : List (String × JSONSchema)) (rank : String → Nat) : Prop :=
  ∀ n res, lookupAssoc definitions n = some res →
    ResolvableFrom definitions rank (rank n) res

/-- The per-endpoint condition equivalent to `validateSchema`'s loop body
succeeding on one endpoint: either `Request` is absent, or it resolves,
the resolved `type` (when present and non-empty) is `"object"`, the
endpoint key parses, and the first path parameter that is `in` the
resolved properties object (a declared property name or an
`Object.prototype` key) — if any — is the empty string, which the JS
truthiness guard `if (collidingParam)` lets through. -/
def endpointCheckOK (resources : List (String × JSONSchema)) (fuel : Nat)
    (name : String) (e : EndpointDefinition) : Prop :=
  match e.Request with
  | none => True
  | some req =>
    ∃ resolved, withResolvedDefinitions fuel req resources = .ok resolved ∧
      (match resolved.type with
       | some ty => ty ≠ "" && ty ≠ "object"
       | none => false) = false ∧
      ∃ params, getPathParams name = some params ∧
        ∀ collidingParam,
          params.find? (fun param =>
            (resolved.properties.getD []).any (fun p => p.1 == param) ||
            OBJECT_PROTOTYPE_KEYS.contains param) = some collidingParam →
          collidingParam = ""

theorem sizeOf_snd_lt_of_mem {l : List (String × JSONSchema)} {p : String × JSONSchema}
    (h : p ∈ l) : sizeOf p.2 < sizeOf l := by
  induction l with
  | nil => cases h
  | cons hd tl ih =>
    rcases List.mem_cons.mp h with h | h
    · subst h; cases p; simp; omega
    · have := ih h; simp; omega

theorem sizeOf_lt_of_mem {l : List JSONSchema} {s : JSONSchema}
    (h : s ∈ l) : sizeOf s < sizeOf l := by
  induction l with
  | nil => cases h
  | cons hd tl ih =>
    rcases List.mem_cons.mp h with h | h
    · subst h; simp; omega
    · have := ih h; simp; omega

theorem JSONSchema.sizeInduction (P : JSONSchema → Prop)
    (h : ∀ s, (∀ c : JSONSchema, sizeOf c < sizeOf s → P c) → P s) : ∀ s, P s := by
  intro s
  generalize hn : sizeOf s = n
  induction n using Nat.strong_induction_on generalizing s with
  | _ n ih => exact h s (fun c hc => ih _ (hn ▸ hc) c rfl)

theorem sizeOf_of_properties {s : JSONSchema} {l : List (String × JSONSchema)}
    (h : s.properties = some l) {p : String × JSONSchema} (hp : p ∈ l) :
    sizeOf p.2 < sizeOf s := by
  cases s with
  | mk ty rf ds ti op ap en rq props its ao oo alo defs =>
    simp [JSONSchema.properties] at h
    subst h
    have := sizeOf_snd_lt_of_mem hp
    simp
    omega

theorem sizeOf_of_items_single {s : JSONSchema} {c : JSONSchema}
    (h : s.items = some (.inl c)) : sizeOf c < sizeOf s := by
  cases s with
  | mk ty rf ds ti op ap en rq props its ao oo alo defs =>
    simp [JSONSchema.items] at h
    subst h
    simp
    omega

theorem sizeOf_of_items_list {s : JSONSchema} {l : List JSONSchema}
    (h : s.items = some (.inr l)) {c : JSONSchema} (hc : c ∈ l) :
    sizeOf c < sizeOf s := by
  cases s with
  | mk ty rf ds ti op ap en rq props its ao oo alo defs =>
    simp [JSONSchema.items] at h
    subst h
    have := sizeOf_lt_of_mem hc
    simp
    omega

theorem sizeOf_of_anyOf {s : JSONSchema} {l : List JSONSchema}
    (h : s.anyOf = some l) {c : JSONSchema} (hc : c ∈ l) : sizeOf c < sizeOf s := by
  cases s with
  | mk ty rf ds ti op ap en rq props its ao oo alo defs =>
    simp [JSONSchema.anyOf] at h
    subst h
    have := sizeOf_lt_of_mem hc
    simp
    omega

theorem sizeOf_of_oneOf {s : JSONSchema} {l : List JSONSchema}
    (h : s.oneOf = some l) {c : JSONSchema} (hc : c ∈ l) : sizeOf c < sizeOf s := by
  cases s with
  | mk ty rf ds ti op ap en rq props its ao oo alo defs =>
    simp [JSONSchema.oneOf] at h
    subst h
    have := sizeOf_lt_of_mem hc
    simp
    omega

theorem sizeOf_of_allOf {s : JSONSchema} {l : List JSONSchema}
    (h : s.allOf = some l) {c : JSONSchema} (hc : c ∈ l) : sizeOf c < sizeOf s := by
  cases s with
  | mk ty rf ds ti op ap en rq props its ao oo alo defs =>
    simp [JSONSchema.allOf] at h
    subst h
    have := sizeOf_lt_of_mem hc
    simp
    omega

theorem list_map_eq_self {α : Type _} {l : List α} {f : α → α}
    (h : ∀ x ∈ l, f x = x) : l.map f = l := by
  induction l with
  | nil => rfl
  | cons hd tl ih =>
    simp only [List.map_cons, h hd (by simp), List.cons.injEq, true_and]
    exact ih (fun x hx => h x (by simp [hx]))

theorem transformProperties_eq_map (l : List (String × JSONSchema))
    (t : JSONSchema → JSONSchema) :
    transformProperties l t = l.map (fun p => (p.1, transformJSONSchema p.2 t)) := by
  induction l with
  | nil => rw [transformProperties]; rfl
  | cons hd tl ih => cases hd; rw [transformProperties]; simp [ih]

theorem transformSchemaList_eq_map (l : List JSONSchema)
    (t : JSONSchema → JSONSchema) :
    transformSchemaList l t = l.map (fun s => transformJSONSchema s t) := by
  induction l with
  | nil => rw [transformSchemaList]; rfl
  | cons hd tl ih => rw [transformSchemaList]; simp [ih]

theorem transformJSONSchema_eq (s : JSONSchema) (t : JSONSchema → JSONSchema) :
    transformJSONSchema s t = t (JSONSchema.mk s.type s.ref s.description s.title
      s.optional s.additionalProperties s.enum s.required
      (s.properties.map (List.map (fun p => (p.1, transformJSONSchema p.2 t))))
      (s.items.map (fun i => match i with
        | .inl x => .inl (transformJSONSchema x t)
        | .inr l => .inr (l.map (fun x => transformJSONSchema x t))))
      (s.anyOf.map (List.map (fun x => transformJSONSchema x t)))
      (s.oneOf.map (List.map (fun x => transformJSONSchema x t)))
      (s.allOf.map (List.map (fun x => transformJSONSchema x t)))
      s.definitions) := by
  cases s with
  | mk ty rf ds ti op ap en rq props its ao oo alo defs =>
    rw [transformJSONSchema.eq_def]
    simp only [deepCopy, JSONSchema.type, JSONSchema.ref, JSONSchema.description,
      JSONSchema.title, JSONSchema.optional, JSONSchema.additionalProperties,
      JSONSchema.enum, JSONSchema.required, JSONSchema.properties, JSONSchema.items,
      JSONSchema.anyOf, JSONSchema.oneOf, JSONSchema.allOf, JSONSchema.definitions,
      transformProperties_eq_map, transformSchemaList_eq_map]
    rcases props with _ | pl <;> rcases its with _ | (x | il) <;>
      rcases ao with _ | al <;> rcases oo with _ | ol <;> rcases alo with _ | ll <;> rfl

theorem transformJSONSchema_identity (s : JSONSchema) :
    transformJSONSchema s (fun x => x) = s := by
  induction s using JSONSchema.sizeInduction with
  | h s ih =>
    rw [transformJSONSchema_eq]
    cases s with
    | mk ty rf ds ti op ap en rq props its ao oo alo defs =>
      simp only [JSONSchema.type, JSONSchema.ref, JSONSchema.description,
        JSONSchema.title, JSONSchema.optional, JSONSchema.additionalProperties,
        JSONSchema.enum, JSONSchema.required, JSONSchema.properties, JSONSchema.items,
        JSONSchema.anyOf, JSONSchema.oneOf, JSONSchema.allOf, JSONSchema.definitions,
        JSONSchema.mk.injEq, true_and]
      refine ⟨?_, ?_, ?_, ?_, ?_, trivial⟩
      · cases props with
        | none => rfl
        | some l =>
          simp only [Option.map]
          congr 1
          apply list_map_eq_self
          intro p hp
          rw [ih p.2 (sizeOf_of_properties
            (s := .mk ty rf ds ti op ap en rq (some l) its ao oo alo defs) rfl hp)]
      · cases its with
        | none => rfl
        | some i =>
          cases i with
          | inl x =>
            simp only [Option.map]
            rw [ih x (sizeOf_of_items_single
              (s := .mk ty rf ds ti op ap en rq props (some (.inl x)) ao oo alo defs) rfl)]
          | inr l =>
            simp only [Option.map]
            rw [list_map_eq_self (fun x hx => ih x
              (sizeOf_of_items_list
                (s := .mk ty rf ds ti op ap en rq props (some (.inr l)) ao oo alo defs) rfl hx))]
      · cases ao with
        | none => rfl
        | some l =>
          simp only [Option.map]
          rw [list_map_eq_self (fun x hx => ih x
            (sizeOf_of_anyOf
              (s := .mk ty rf ds ti op ap en rq props its (some l) oo alo defs) rfl hx))]
      · cases oo with
        | none => rfl
        | some l =>
          simp only [Option.map]
          rw [list_map_eq_self (fun x hx => ih x
            (sizeOf_of_oneOf
              (s := .mk ty rf ds ti op ap en rq props its ao (some l) alo defs) rfl hx))]
      · cases alo with
        | none => rfl
        | some l =>
          simp only [Option.map]
          rw [list_map_eq_self (fun x hx => ih x
            (sizeOf_of_allOf
              (s := .mk ty rf ds ti op ap en rq props its ao oo (some l) defs) rfl hx))]

section ProjectionSimp

variable (ty rf ds ti : Option String) (op ap : Option Bool)
variable (en rq : Option (List String))
variable (props defs : Option (List (String × JSONSchema)))
variable (its : Option (JSONSchema ⊕ List JSONSchema))
variable (ao oo alo : Option (List JSONSchema))

@[simp] theorem JSONSchema.type_mk :
    (JSONSchema.mk ty rf ds ti op ap en rq props its ao oo alo defs).type = ty := rfl

@[simp] theorem JSONSchema.ref_mk :
    (JSONSchema.mk ty rf ds ti op ap en rq props its ao oo alo defs).ref = rf := rfl

@[simp] theorem JSONSchema.description_mk :
    (JSONSchema.mk ty rf ds ti op ap en rq props its ao oo alo defs).description = ds := rfl

@[simp] theorem JSONSchema.title_mk :
    (JSONSchema.mk ty rf ds ti op ap en rq props its ao oo alo defs).title = ti := rfl

@[simp] theorem JSONSchema.optional_mk :
    (JSONSchema.mk ty rf ds ti op ap en rq props its ao oo alo defs).optional = op := rfl

@[simp] theorem JSONSchema.additionalProperties_mk :
    (JSONSchema.mk ty rf ds ti op ap en rq props its ao oo alo defs).additionalProperties = ap := rfl

@[simp] theorem JSONSchema.enum_mk :
    (JSONSchema.mk ty rf ds ti op ap en rq props its ao oo alo defs).enum = en := rfl

@[simp] theorem JSONSchema.required_mk :
    (JSONSchema.mk ty rf ds ti op ap en rq props its ao oo alo defs).required = rq := rfl

@[simp] theorem JSONSchema.properties_mk :
    (JSONSchema.mk ty rf ds ti op ap en rq props its ao oo alo defs).properties = props := rfl

@[simp] theorem JSONSchema.items_mk :
    (JSONSchema.mk ty rf ds ti op ap en rq props its ao oo alo defs).items = its := rfl

@[simp] theorem JSONSchema.anyOf_mk :
    (JSONSchema.mk ty rf ds ti op ap en rq props its ao oo alo defs).anyOf = ao := rfl

@[simp] theorem JSONSchema.oneOf_mk :
    (JSONSchema.mk ty rf ds ti op ap en rq props its ao oo alo defs).oneOf = oo := rfl

@[simp] theorem JSONSchema.allOf_mk :
    (JSONSchema.mk ty rf ds ti op ap en rq props its ao oo alo defs).allOf = alo := rfl

@[simp] theorem JSONSchema.definitions_mk :
    (JSONSchema.mk ty rf ds ti op ap en rq props its ao oo alo defs).definitions = defs := rfl

@[simp] theorem JSONSchema.setRequired_mk (r : Option (List String)) :
    (JSONSchema.mk ty rf ds ti op ap en rq props its ao oo alo defs).setRequired r =
      JSONSchema.mk ty rf ds ti op ap en r props its ao oo alo defs := rfl

@[simp] theorem JSONSchema.setOptionalMarker_mk (o : Option Bool) :
    (JSONSchema.mk ty rf ds ti op ap en rq props its ao oo alo defs).setOptionalMarker o =
      JSONSchema.mk ty rf ds ti o ap en rq props its ao oo alo defs := rfl

@[simp] theorem JSONSchema.setAdditionalProperties_mk (a : Option Bool) :
    (JSONSchema.mk ty rf ds ti op ap en rq props its ao oo alo defs).setAdditionalProperties a =
      JSONSchema.mk ty rf ds ti op a en rq props its ao oo alo defs := rfl

@[simp] theorem JSONSchema.setProperties_mk (p : Option (List (String × JSONSchema))) :
    (JSONSchema.mk ty rf ds ti op ap en rq props its ao oo alo defs).setProperties p =
      JSONSchema.mk ty rf ds ti op ap en rq p its ao oo alo defs := rfl

end ProjectionSimp

@[simp] theorem mapIsSome {α β : Type _} (o : Option α) (f : α → β) :
    (o.map f).isSome = o.isSome := by cases o <;> rfl

theorem requiredByDefaultSpecProps_eq_map (l : List (String × JSONSchema)) :
    requiredByDefaultSpecProps l = l.map (fun p => (p.1, requiredByDefaultSpec p.2)) := by
  induction l with
  | nil => rw [requiredByDefaultSpecProps]; rfl
  | cons hd tl ih => cases hd; rw [requiredByDefaultSpecProps]; simp [ih]

theorem requiredByDefaultSpecList_eq_map (l : List JSONSchema) :
    requiredByDefaultSpecList l = l.map requiredByDefaultSpec := by
  induction l with
  | nil => rw [requiredByDefaultSpecList]; rfl
  | cons hd tl ih => rw [requiredByDefaultSpecList]; simp [ih]

theorem requiredByDefaultSpec_eq (s : JSONSchema) :
    requiredByDefaultSpec s = .mk s.type s.ref s.description s.title none
      s.additionalProperties s.enum
      (requiredDefaulted s.type s.required s.properties)
      (s.properties.map (List.map (fun p => (p.1, requiredByDefaultSpec p.2))))
      (s.items.map (fun i => match i with
        | .inl x => .inl (requiredByDefaultSpec x)
        | .inr l => .inr (l.map requiredByDefaultSpec)))
      (s.anyOf.map (List.map requiredByDefaultSpec))
      (s.oneOf.map (List.map requiredByDefaultSpec))
      (s.allOf.map (List.map requiredByDefaultSpec))
      s.definitions := by
  cases s with
  | mk ty rf ds ti op ap en rq props its ao oo alo defs =>
    rw [requiredByDefaultSpec.eq_def]
    simp only [JSONSchema.type_mk, JSONSchema.ref_mk, JSONSchema.description_mk,
      JSONSchema.title_mk, JSONSchema.optional_mk, JSONSchema.additionalProperties_mk,
      JSONSchema.enum_mk, JSONSchema.required_mk, JSONSchema.properties_mk,
      JSONSchema.items_mk, JSONSchema.anyOf_mk, JSONSchema.oneOf_mk,
      JSONSchema.allOf_mk, JSONSchema.definitions_mk,
      requiredByDefaultSpecProps_eq_map, requiredByDefaultSpecList_eq_map]
    rcases props with _ | pl <;> rcases its with _ | (x | il) <;>
      rcases ao with _ | al <;> rcases oo with _ | ol <;> rcases alo with _ | ll <;> rfl

theorem optional_objectPropertiesRequiredTransform (x : JSONSchema) :
    (objectPropertiesRequiredTransform x).optional = x.optional := by
  cases x with
  | mk ty rf ds ti op ap en rq props its ao oo alo defs =>
    rw [objectPropertiesRequiredTransform]
    split
    · simp only [JSONSchema.required_mk]
      cases rq <;> simp
    · rfl

theorem optional_transform_required (x : JSONSchema) :
    (transformJSONSchema x objectPropertiesRequiredTransform).optional = x.optional := by
  rw [transformJSONSchema_eq, optional_objectPropertiesRequiredTransform]
  simp


theorem filter_optional_map_transform (pl : List (String × JSONSchema)) :
    (((pl.map (fun p => (p.1, transformJSONSchema p.2 objectPropertiesRequiredTransform))).filter
      (fun p => p.2.optional ≠ some true)).map (fun p => p.1)) =
    ((pl.filter (fun p => p.2.optional ≠ some true)).map (fun p => p.1)) := by
  induction pl with
  | nil => rfl
  | cons hd tl ih =>
    simp only [List.map_cons, List.filter_cons]
    have heq : (decide ((transformJSONSchema hd.2 objectPropertiesRequiredTransform).optional ≠ some true))
        = decide (hd.2.optional ≠ some true) := by
      rw [optional_transform_required]
    simp only [heq]
    cases hdec : decide (hd.2.optional ≠ some true) <;> simp only [if_pos, if_neg,
      Bool.false_eq_true, ite_false, ite_true, List.map_cons, ih]

theorem requirePass_eq_spec (s : JSONSchema) :
    transformJSONSchema (transformJSONSchema s objectPropertiesRequiredTransform)
      pruneOptionalTransform = requiredByDefaultSpec s := by
  induction s using JSONSchema.sizeInduction with
  | h s ih =>
    cases s with
    | mk ty rf ds ti op ap en rq props its ao oo alo defs =>
      have hP : Option.map (List.map (fun p =>
            (p.1, transformJSONSchema p.2 pruneOptionalTransform)))
          (Option.map (List.map (fun p =>
            (p.1, transformJSONSchema p.2 objectPropertiesRequiredTransform))) props) =
          props.map (List.map (fun p => (p.1, requiredByDefaultSpec p.2))) := by
        cases props with
        | none => rfl
        | some pl =>
          simp only [Option.map, List.map_map]
          congr 1
          apply List.map_congr_left
          intro p hp
          simp only [Function.comp]
          rw [ih p.2 (sizeOf_of_properties
            (s := .mk ty rf ds ti op ap en rq (some pl) its ao oo alo defs) rfl hp)]
      have hI : Option.map (fun i => match i with
            | Sum.inl x => Sum.inl (transformJSONSchema x pruneOptionalTransform)
            | Sum.inr l => Sum.inr (l.map (fun x => transformJSONSchema x pruneOptionalTransform)))
          (Option.map (fun i => match i with
            | Sum.inl x => Sum.inl (transformJSONSchema x objectPropertiesRequiredTransform)
            | Sum.inr l => Sum.inr (l.map (fun x => transformJSONSchema x objectPropertiesRequiredTransform)))
            its) =
          its.map (fun i => match i with
            | Sum.inl x => Sum.inl (requiredByDefaultSpec x)
            | Sum.inr l => Sum.inr (l.map requiredByDefaultSpec)) := by
        cases its with
        | none => rfl
        | some i =>
          cases i with
          | inl x =>
            simp only [Option.map]
            rw [ih x (sizeOf_of_items_single
              (s := .mk ty rf ds ti op ap en rq props (some (.inl x)) ao oo alo defs) rfl)]
          | inr l =>
            simp only [Option.map, List.map_map]
            congr 2
            apply List.map_congr_left
            intro x hx
            simp only [Function.comp]
            rw [ih x (sizeOf_of_items_list
              (s := .mk ty rf ds ti op ap en rq props (some (.inr l)) ao oo alo defs) rfl hx)]
      have hA : Option.map (List.map (fun x => transformJSONSchema x pruneOptionalTransform))
          (Option.map (List.map (fun x => transformJSONSchema x objectPropertiesRequiredTransform)) ao) =
          ao.map (List.map requiredByDefaultSpec) := by
        cases ao with
        | none => rfl
        | some l =>
          simp only [Option.map, List.map_map]
          congr 1
          apply List.map_congr_left
          intro x hx
          simp only [Function.comp]
          rw [ih x (sizeOf_of_anyOf
            (s := .mk ty rf ds ti op ap en rq props its (some l) oo alo defs) rfl hx)]
      have hO : Option.map (List.map (fun x => transformJSONSchema x pruneOptionalTransform))
          (Option.map (List.map (fun x => transformJSONSchema x objectPropertiesRequiredTransform)) oo) =
          oo.map (List.map requiredByDefaultSpec) := by
        cases oo with
        | none => rfl
        | some l =>
          simp only [Option.map, List.map_map]
          congr 1
          apply List.map_congr_left
          intro x hx
          simp only [Function.comp]
          rw [ih x (sizeOf_of_oneOf
            (s := .mk ty rf ds ti op ap en rq props its ao (some l) alo defs) rfl hx)]
      have hL : Option.map (List.map (fun x => transformJSONSchema x pruneOptionalTransform))
          (Option.map (List.map (fun x => transformJSONSchema x objectPropertiesRequiredTransform)) alo) =
          alo.map (List.map requiredByDefaultSpec) := by
        cases alo with
        | none => rfl
        | some l =>
          simp only [Option.map, List.map_map]
          congr 1
          apply List.map_congr_left
          intro x hx
          simp only [Function.comp]
          rw [ih x (sizeOf_of_allOf
            (s := .mk ty rf ds ti op ap en rq props its ao oo (some l) defs) rfl hx)]
      rw [transformJSONSchema_eq (JSONSchema.mk ty rf ds ti op ap en rq props its ao oo alo defs),
        requiredByDefaultSpec_eq]
      simp only [JSONSchema.type_mk, JSONSchema.ref_mk, JSONSchema.description_mk,
        JSONSchema.title_mk, JSONSchema.optional_mk, JSONSchema.additionalProperties_mk,
        JSONSchema.enum_mk, JSONSchema.required_mk, JSONSchema.properties_mk,
        JSONSchema.items_mk, JSONSchema.anyOf_mk, JSONSchema.oneOf_mk,
        JSONSchema.allOf_mk, JSONSchema.definitions_mk]
      rw [objectPropertiesRequiredTransform]
      simp only [JSONSchema.type_mk, JSONSchema.required_mk, JSONSchema.properties_mk,
        mapIsSome]
      split
      case isTrue hc =>
        cases rq with
        | some r =>
          rw [transformJSONSchema_eq]
          simp only [JSONSchema.type_mk, JSONSchema.ref_mk, JSONSchema.description_mk,
            JSONSchema.title_mk, JSONSchema.optional_mk, JSONSchema.additionalProperties_mk,
            JSONSchema.enum_mk, JSONSchema.required_mk, JSONSchema.properties_mk,
            JSONSchema.items_mk, JSONSchema.anyOf_mk, JSONSchema.oneOf_mk,
            JSONSchema.allOf_mk, JSONSchema.definitions_mk, pruneOptionalTransform,
            JSONSchema.setOptionalMarker_mk]
          rw [requiredDefaulted.eq_def, if_pos hc]
          simp only [JSONSchema.mk.injEq, true_and]
          exact ⟨hP, hI, hA, hO, hL, trivial⟩
        | none =>
          rw [transformJSONSchema_eq]
          simp only [JSONSchema.setRequired_mk, JSONSchema.type_mk, JSONSchema.ref_mk,
            JSONSchema.description_mk, JSONSchema.title_mk, JSONSchema.optional_mk,
            JSONSchema.additionalProperties_mk, JSONSchema.enum_mk, JSONSchema.required_mk,
            JSONSchema.properties_mk, JSONSchema.items_mk, JSONSchema.anyOf_mk,
            JSONSchema.oneOf_mk, JSONSchema.allOf_mk, JSONSchema.definitions_mk,
            pruneOptionalTransform, JSONSchema.setOptionalMarker_mk]
          rw [requiredDefaulted.eq_def, if_pos hc]
          obtain ⟨hty, hsome⟩ := hc
          obtain ⟨pl, rfl⟩ := Option.isSome_iff_exists.mp hsome
          simp only [JSONSchema.mk.injEq, true_and]
          refine ⟨?_, hP, hI, hA, hO, hL, trivial⟩
          simp only [Option.map, Option.getD]
          rw [filter_optional_map_transform]
      case isFalse hc =>
        rw [transformJSONSchema_eq]
        simp only [JSONSchema.type_mk, JSONSchema.ref_mk, JSONSchema.description_mk,
          JSONSchema.title_mk, JSONSchema.optional_mk, JSONSchema.additionalProperties_mk,
          JSONSchema.enum_mk, JSONSchema.required_mk, JSONSchema.properties_mk,
          JSONSchema.items_mk, JSONSchema.anyOf_mk, JSONSchema.oneOf_mk,
          JSONSchema.allOf_mk, JSONSchema.definitions_mk, pruneOptionalTransform,
          JSONSchema.setOptionalMarker_mk]
        rw [requiredDefaulted.eq_def, if_neg hc]
        simp only [JSONSchema.mk.injEq, true_and]
        exact ⟨hP, hI, hA, hO, hL, trivial⟩

theorem transformJSONSchema_empty (t : JSONSchema → JSONSchema) :
    transformJSONSchema JSONSchema.empty t = t JSONSchema.empty := by
  rw [transformJSONSchema_eq]; rfl

theorem noAdditionalPropertiesTransform_empty :
    noAdditionalPropertiesTransform JSONSchema.empty = JSONSchema.empty := rfl

theorem objectPropertiesRequiredTransform_empty :
    objectPropertiesRequiredTransform JSONSchema.empty = JSONSchema.empty := rfl

theorem pruneOptionalTransform_empty :
    pruneOptionalTransform JSONSchema.empty = JSONSchema.empty := rfl

theorem transformEndpoint_request_none {e : EndpointDefinition}
    (h : e.Request = none) (t : JSONSchema → JSONSchema) :
    (transformEndpoint t e).Request = some (t JSONSchema.empty) := by
  simp [transformEndpoint, h, transformJSONSchema_empty]

theorem transformEndpoint_request_some {e : EndpointDefinition} {x : JSONSchema}
    (h : e.Request = some x) (t : JSONSchema → JSONSchema) :
    (transformEndpoint t e).Request = some (transformJSONSchema x t) := by
  simp [transformEndpoint, h]

theorem mem_transformOneSchemaOnce {spec : OneSchemaDefinition} {k : String}
    {e : EndpointDefinition} (h : (k, e) ∈ spec.Endpoints) (t : JSONSchema → JSONSchema) :
    (k, transformEndpoint t e) ∈ (transformOneSchemaOnce spec t).Endpoints := by
  simpa [transformOneSchemaOnce] using List.mem_map_of_mem (fun p => (p.1, transformEndpoint t p.2)) h

/-- Claim C9: enabling any assumption flag materializes an absent
`Request` as the empty schema `{}` on every endpoint: the pass writes
`transformJSONSchema(Request ?? {}, transform)` back unconditionally, so
the frame of the transformation is wider than the flags suggest. -/
theorem claim_C9_absent_request_materialized :
    ∀ (spec : OneSchemaDefinition) (flags : SchemaAssumptions),
    (flags.noAdditionalPropertiesOnObjects = true ∨
      flags.objectPropertiesRequiredByDefault = true) →
    ∀ k e, (k, e) ∈ spec.Endpoints → e.Request = none →
    ∃ e', (k, e') ∈ (withAssumptions spec flags).Endpoints ∧
      e'.Request = some JSONSchema.empty := by
  intro spec flags hflag k e hmem hreq
  obtain ⟨a, b⟩ := flags
  cases a <;> cases b
  · rcases hflag with h | h <;> exact absurd h (by simp)
  · -- only objectPropertiesRequiredByDefault
    refine ⟨_, mem_transformOneSchemaOnce (mem_transformOneSchemaOnce hmem
      objectPropertiesRequiredTransform) pruneOptionalTransform, ?_⟩
    have h1 : (transformEndpoint objectPropertiesRequiredTransform e).Request =
        some JSONSchema.empty := by
      rw [transformEndpoint_request_none hreq, objectPropertiesRequiredTransform_empty]
    rw [transformEndpoint_request_some h1, transformJSONSchema_empty,
      pruneOptionalTransform_empty]
  · -- only noAdditionalPropertiesOnObjects
    refine ⟨_, mem_transformOneSchemaOnce hmem noAdditionalPropertiesTransform, ?_⟩
    rw [transformEndpoint_request_none hreq, noAdditionalPropertiesTransform_empty]
  · -- both
    refine ⟨_, mem_transformOneSchemaOnce (mem_transformOneSchemaOnce
      (mem_transformOneSchemaOnce hmem noAdditionalPropertiesTransform)
      objectPropertiesRequiredTransform) pruneOptionalTransform, ?_⟩
    have h0 : (transformEndpoint noAdditionalPropertiesTransform e).Request =
        some JSONSchema.empty := by
      rw [transformEndpoint_request_none hreq, noAdditionalPropertiesTransform_empty]
    have h1 : (transformEndpoint objectPropertiesRequiredTransform
        (transformEndpoint noAdditionalPropertiesTransform e)).Request =
        some JSONSchema.empty := by
      rw [transformEndpoint_request_some h0, transformJSONSchema_empty,
        objectPropertiesRequiredTransform_empty]
    rw [transformEndpoint_request_some h1, transformJSONSchema_empty,
      pruneOptionalTransform_empty]

/-- Witness for claim C9 at a concrete contract with an absent `Request`. -/
theorem claim_C9_witness :
    (DEFAULT_ASSUMPTIONS.noAdditionalPropertiesOnObjects = true ∨
      DEFAULT_ASSUMPTIONS.objectPropertiesRequiredByDefault = true) ∧
    ("POST /posts",
      ({ Name := "createPost", Response := JSONSchema.empty } : EndpointDefinition)) ∈
        c9WitnessContract.Endpoints ∧
    ({ Name := "createPost", Response := JSONSchema.empty } : EndpointDefinition).Request
      = none ∧
    ∃ e', ("POST /posts", e') ∈
        (withAssumptions c9WitnessContract DEFAULT_ASSUMPTIONS).Endpoints ∧
      e'.Request = some JSONSchema.empty :=
  ⟨Or.inl rfl, by simp [c9WitnessContract], rfl,
    claim_C9_absent_request_materialized c9WitnessContract DEFAULT_ASSUMPTIONS
      (Or.inl rfl) "POST /posts"
      { Name := "createPost", Response := JSONSchema.empty }
      (by simp [c9WitnessContract]) rfl⟩

/-- Claim C4: the transformer with the identity transform returns a deep
equal of its input: `transform(node, identity)` deep-equals `node` for
every node.  (In this pure value model structural independence and
non-mutation of the input hold by construction; the source obtains them
with `deepCopy`, which serializes and reparses.) -/
theorem claim_C4_transform_identity :
    ∀ s : JSONSchema, transformJSONSchema s (fun x => x) = s :=
  transformJSONSchema_identity

/-- Claim C3: under the `objectPropertiesRequiredByDefault` assumption,
the two-pass transform applied by `withAssumptions` to every schema of
the contract (`objectPropertiesRequiredTransform` followed by
`pruneOptionalTransform`) equals the specified behavior at every node:
`required` becomes exactly the names of the properties not marked
`optional: true` on every object node with declared properties unless an
explicit `required` list is present (which stays untouched), and the
`optional` marker is absent from every node of the result. -/
theorem claim_C3_required_by_default :
    ∀ s : JSONSchema,
      transformJSONSchema (transformJSONSchema s objectPropertiesRequiredTransform)
        pruneOptionalTransform = requiredByDefaultSpec s :=
  requirePass_eq_spec

theorem lookupAssoc_setAssoc_self {α : Type _} (l : List (String × α)) (k : String) (v : α) :
    lookupAssoc (setAssoc l k v) k = some v := by
  induction l with
  | nil => simp [setAssoc, lookupAssoc]
  | cons hd tl ih =>
    by_cases h : hd.1 = k
    · cases hd; simp_all [setAssoc, lookupAssoc]
    · cases hd; simp_all [setAssoc, lookupAssoc]

theorem lookupAssoc_setAssoc_ne {α : Type _} (l : List (String × α)) {k k' : String}
    (v : α) (h : k' ≠ k) : lookupAssoc (setAssoc l k v) k' = lookupAssoc l k' := by
  induction l with
  | nil =>
    simp only [setAssoc, lookupAssoc]
    rw [if_neg (fun hc => h hc.symm)]
  | cons hd tl ih =>
    cases hd with
    | mk k0 v0 =>
      by_cases h2 : k0 = k
      · subst h2
        simp only [setAssoc, if_pos rfl, lookupAssoc]
        rw [if_neg (fun hc => h hc.symm), if_neg (fun hc => h hc.symm)]
      · simp only [setAssoc, if_neg h2, lookupAssoc]
        by_cases h3 : k0 = k'
        · simp [h3]
        · simp [h3, ih]

theorem lookupAssoc_eq_none_iff {α : Type _} (l : List (String × α)) (k : String) :
    lookupAssoc l k = none ↔ k ∉ l.map Prod.fst := by
  induction l with
  | nil => simp [lookupAssoc]
  | cons hd tl ih =>
    cases hd with
    | mk k0 v0 =>
      by_cases h : k0 = k
      · subst h; simp [lookupAssoc]
      · simp [lookupAssoc, h, ih, Ne.symm h]

theorem setAssoc_of_not_mem {α : Type _} {l : List (String × α)} {k : String}
    (h : lookupAssoc l k = none) (v : α) : setAssoc l k v = l ++ [(k, v)] := by
  induction l with
  | nil => rfl
  | cons hd tl ih =>
    cases hd with
    | mk k0 v0 =>
      by_cases h2 : k0 = k
      · subst h2; simp [lookupAssoc] at h
      · simp only [setAssoc, if_neg h2, List.cons_append, List.cons.injEq, true_and]
        exact ih (by simpa [lookupAssoc, h2] using h)

theorem lookup_foldl_setAssoc_not_mem {α β : Type _} (l : List (String × α))
    (f : String × α → β) {k : String}
    (h : k ∉ l.map Prod.fst) (acc : List (String × β)) :
    lookupAssoc (l.foldl (fun a p => setAssoc a p.1 (f p)) acc) k = lookupAssoc acc k := by
  induction l generalizing acc with
  | nil => rfl
  | cons hd tl ih =>
    simp only [List.map_cons, List.mem_cons, not_or] at h
    simp only [List.foldl_cons]
    rw [ih h.2, lookupAssoc_setAssoc_ne _ _ h.1]

theorem lookup_foldl_setAssoc {α β : Type _} {l : List (String × α)}
    (f : String × α → β) {k : String} {e : α}
    (hmem : (k, e) ∈ l) (hnd : (l.map Prod.fst).Nodup) (acc : List (String × β)) :
    lookupAssoc (l.foldl (fun a p => setAssoc a p.1 (f p)) acc) k = some (f (k, e)) := by
  induction l generalizing acc with
  | nil => cases hmem
  | cons hd tl ih =>
    simp only [List.map_cons, List.nodup_cons] at hnd
    simp only [List.foldl_cons]
    rcases List.mem_cons.mp hmem with h | h
    · subst h
      rw [lookup_foldl_setAssoc_not_mem _ f hnd.1]
      exact lookupAssoc_setAssoc_self ..
    · exact ih h hnd.2 _

theorem keys_foldl_setAssoc {α β : Type _} (l : List (String × α))
    (f : String × α → β) :
    ∀ acc : List (String × β), (∀ k ∈ l.map Prod.fst, lookupAssoc acc k = none) →
    (l.map Prod.fst).Nodup →
    (l.foldl (fun a p => setAssoc a p.1 (f p)) acc).map Prod.fst =
      acc.map Prod.fst ++ l.map Prod.fst := by
  induction l with
  | nil => intro acc _ _; simp
  | cons hd tl ih =>
    intro acc hacc hnd
    simp only [List.map_cons, List.nodup_cons] at hnd
    simp only [List.foldl_cons, List.map_cons]
    rw [ih _ ?_ hnd.2]
    · rw [setAssoc_of_not_mem (hacc hd.1 (by simp))]
      simp
    · intro k hk
      rw [setAssoc_of_not_mem (hacc hd.1 (by simp))]
      have h1 : lookupAssoc acc k = none := hacc k (by simp [hk])
      have h2 : hd.1 ≠ k := fun hcontra => hnd.1 (hcontra ▸ hk)
      rw [lookupAssoc_eq_none_iff] at h1 ⊢
      simp [h1, Ne.symm h2]

theorem lookup_foldl_setAssoc_const {α : Type _} (params : List String) (v : α) (n : String) :
    ∀ acc, lookupAssoc (params.foldl (fun a x => setAssoc a x v) acc) n =
      if n ∈ params then some v else lookupAssoc acc n := by
  induction params with
  | nil => intro acc; simp
  | cons hd tl ih =>
    intro acc
    simp only [List.foldl_cons]
    rw [ih]
    by_cases h : n ∈ tl
    · simp [h]
    · by_cases h2 : n = hd
      · subst h2
        simp [h, lookupAssoc_setAssoc_self]
      · simp [h, h2, lookupAssoc_setAssoc_ne _ _ h2]

theorem masterSchemaLoop_ok :
    ∀ (l : List (String × EndpointDefinition)) (accum m : JSONSchema)
      (pl0 : List (String × JSONSchema)),
    accum.properties = some pl0 →
    masterSchemaLoop l accum = some m →
    m.type = accum.type ∧ m.title = accum.title ∧
    m.additionalProperties = accum.additionalProperties ∧
    m.required = accum.required ∧ m.definitions = accum.definitions ∧
    (∀ p ∈ l, (getPathParams p.1).isSome) ∧
    m.properties = some (l.foldl (fun acc p =>
      setAssoc acc p.1 (endpointEntrySchema p.2 ((getPathParams p.1).getD []))) pl0) := by
  intro l
  induction l with
  | nil =>
    intro accum m pl0 hacc hloop
    rw [masterSchemaLoop] at hloop
    cases hloop
    simp [hacc]
  | cons hd tl ih =>
    intro accum m pl0 hacc hloop
    cases hd with
    | mk key e =>
      rw [masterSchemaLoop] at hloop
      cases hk : getPathParams key with
      | none => rw [hk] at hloop; cases hloop
      | some params =>
        rw [hk] at hloop
        cases accum with
        | mk ty rf ds ti op ap en rq props its ao oo alo defs =>
          simp only [JSONSchema.properties_mk] at hacc
          subst hacc
          simp only [JSONSchema.setProperties_mk, JSONSchema.properties_mk, Option.getD] at hloop
          have := ih _ m (setAssoc pl0 key (endpointEntrySchema e params)) (by simp) hloop
          simp only [JSONSchema.type_mk, JSONSchema.title_mk,
            JSONSchema.additionalProperties_mk, JSONSchema.required_mk,
            JSONSchema.definitions_mk, JSONSchema.properties_mk] at this ⊢
          refine ⟨this.1, this.2.1, this.2.2.1, this.2.2.2.1, this.2.2.2.2.1, ?_, ?_⟩
          · intro p hp
            rcases List.mem_cons.mp hp with h | h
            · subst h; simp [hk]
            · exact this.2.2.2.2.2.1 p h
          · rw [this.2.2.2.2.2.2]
            simp [hk]

/-- Claim C2: for every contract whose endpoint keys are pairwise
distinct and do parse (`getPathParams` succeeds on every key), the
composite `masterSchema` has one `properties` entry per endpoint key, in
order; each entry is the closed object `endpointEntrySchema`, whose
`required` list is exactly `[\x22Request\x22, \x22PathParams\x22, \x22Response\x22]` and whose
`PathParams` is a freshly built closed object schema requiring exactly
the path parameters of the key, each string-typed; an endpoint without
path parameters gets the closed empty object (never an absent field);
and the composite's `definitions` equals the contract's `Resources`. -/
theorem claim_C2_composite_schema :
    ∀ (spec : OneSchemaDefinition) (m : JSONSchema),
    (spec.Endpoints.map Prod.fst).Nodup →
    masterSchema spec = some m →
    m.definitions = spec.Resources ∧
    m.type = some "object" ∧ m.title = some "Endpoints" ∧
    m.additionalProperties = some false ∧
    m.required = some (spec.Endpoints.map Prod.fst) ∧
    (∃ pl, m.properties = some pl ∧
      pl.map Prod.fst = spec.Endpoints.map Prod.fst ∧
      ∀ k e, (k, e) ∈ spec.Endpoints → ∃ params, getPathParams k = some params ∧
        lookupAssoc pl k = some (endpointEntrySchema e params)) ∧
    (∀ params n, lookupAssoc ((pathParamsSchema params).properties.getD []) n =
        if n ∈ params then some stringTypeSchema else none) ∧
    pathParamsSchema [] = .mk (some "object") none none none none (some false) none
      (some []) (some []) none none none none none := by
  intro spec m hnd hms
  rw [masterSchema] at hms
  have hloop := masterSchemaLoop_ok spec.Endpoints (masterSchemaInit spec) m []
    (by simp [masterSchemaInit]) hms
  simp only [masterSchemaInit, JSONSchema.type_mk, JSONSchema.title_mk,
    JSONSchema.additionalProperties_mk, JSONSchema.required_mk,
    JSONSchema.definitions_mk] at hloop
  obtain ⟨h1, h2, h3, h4, h5, hparams, hprops⟩ := hloop
  refine ⟨h5, h1, h2, h3, h4, ⟨_, hprops, ?_, ?_⟩, ?_, rfl⟩
  · rw [keys_foldl_setAssoc _ _ [] (by intro k hk; rfl) hnd]
    rfl
  · intro k e hmem
    have hsome := hparams (k, e) hmem
    cases hk : getPathParams k with
    | none => rw [hk] at hsome; cases hsome
    | some params =>
      refine ⟨params, rfl, ?_⟩
      rw [lookup_foldl_setAssoc _ hmem hnd []]
      simp [hk]
  · intro params n
    simp only [pathParamsSchema, JSONSchema.properties_mk, Option.getD]
    exact lookup_foldl_setAssoc_const params stringTypeSchema n []

theorem validateEndpoints_ok_iff (resources : List (String × JSONSchema)) (fuel : Nat) :
    ∀ l : List (String × EndpointDefinition),
    validateEndpoints resources fuel l = .ok () ↔
      ∀ p ∈ l, endpointCheckOK resources fuel p.1 p.2 := by
  intro l
  induction l with
  | nil => simp [validateEndpoints]
  | cons hd tl ih =>
    cases hd with
    | mk name e =>
      cases hreq : e.Request with
      | none =>
        rw [validateEndpoints]
        simp only [hreq, ih]
        constructor
        · intro h p hp
          rcases List.mem_cons.mp hp with h2 | h2
          · subst h2; simp [endpointCheckOK, hreq]
          · exact h p h2
        · intro h p hp
          exact h p (List.mem_cons_of_mem _ hp)
      | some req =>
        cases hres : withResolvedDefinitions fuel req resources with
        | error er =>
          rw [validateEndpoints]
          simp only [hreq, hres, Except.bind]
          constructor
          · intro h; exact absurd h (by simp)
          · intro h
            have := h (name, e) (List.mem_cons_self ..)
            simp only [endpointCheckOK, hreq] at this
            obtain ⟨resolved, hres2, _⟩ := this
            rw [hres] at hres2
            cases hres2
        | ok resolved =>
          rw [validateEndpoints]
          simp only [hreq, hres, Except.bind]
          by_cases htype : (match resolved.type with
              | some ty => ty ≠ "" && ty ≠ "object"
              | none => false) = true
          · rw [if_pos htype]
            constructor
            · intro h; exact absurd h (by simp)
            · intro h
              have := h (name, e) (List.mem_cons_self ..)
              simp only [endpointCheckOK, hreq] at this
              obtain ⟨resolved2, hres2, hty2, _⟩ := this
              rw [hres] at hres2
              cases hres2
              rw [htype] at hty2
              cases hty2
          · rw [if_neg htype]
            have htypef : (match resolved.type with
                | some ty => ty ≠ "" && ty ≠ "object"
                | none => false) = false := by
              revert htype
              cases (match resolved.type with
                | some ty => ty ≠ "" && ty ≠ "object"
                | none => false) <;> simp
            cases hpp : getPathParams name with
            | none =>
              simp only [hpp]
              constructor
              · intro h; exact absurd h (by simp)
              · intro h
                have := h (name, e) (List.mem_cons_self ..)
                simp only [endpointCheckOK, hreq] at this
                obtain ⟨resolved2, hres2, _, params, hpp2, _⟩ := this
                rw [hres] at hres2
                cases hres2
                rw [hpp] at hpp2
                cases hpp2
            | some params =>
              simp only [hpp]
              cases hfind : params.find? (fun param =>
                  (resolved.properties.getD []).any (fun p => p.1 == param) ||
                  OBJECT_PROTOTYPE_KEYS.contains param) with
              | some param =>
                simp only [hfind]
                by_cases hemp : param = ""
                · rw [if_pos hemp, ih]
                  constructor
                  · intro h p hp
                    rcases List.mem_cons.mp hp with h2 | h2
                    · subst h2
                      simp only [endpointCheckOK, hreq]
                      refine ⟨resolved, hres, htypef, params, hpp, ?_⟩
                      intro cp hcp
                      rw [hfind] at hcp
                      injection hcp with hcp
                      rw [← hcp]
                      exact hemp
                    · exact h p h2
                  · intro h p hp
                    exact h p (List.mem_cons_of_mem _ hp)
                · rw [if_neg hemp]
                  constructor
                  · intro h; exact absurd h (by simp)
                  · intro h
                    have := h (name, e) (List.mem_cons_self ..)
                    simp only [endpointCheckOK, hreq] at this
                    obtain ⟨resolved2, hres2, _, params2, hpp2, hfind2⟩ := this
                    rw [hres] at hres2
                    cases hres2
                    rw [hpp] at hpp2
                    cases hpp2
                    exact absurd (hfind2 param hfind) hemp
              | none =>
                simp only [hfind, ih]
                constructor
                · intro h p hp
                  rcases List.mem_cons.mp hp with h2 | h2
                  · subst h2
                    simp only [endpointCheckOK, hreq]
                    refine ⟨resolved, hres, htypef, params, hpp, ?_⟩
                    intro cp hcp
                    rw [hfind] at hcp
                    cases hcp
                  · exact h p h2
                · intro h p hp
                  exact h p (List.mem_cons_of_mem _ hp)

theorem validateSchema_ok_iff (spec : OneSchemaDefinition) :
    validateSchema spec = .ok () ↔
      (metaSchemaCheck spec = true ∧
        ∀ p ∈ spec.Endpoints,
          endpointCheckOK (spec.Resources.getD [])
            (resolutionFuel (spec.Resources.getD [])) p.1 p.2) := by
  rw [validateSchema]
  cases hmeta : metaSchemaCheck spec with
  | false =>
    rw [if_neg (by simp [hmeta])]
    simp
  | true =>
    rw [if_pos rfl]
    rw [validateEndpoints_ok_iff]
    simp

/-- Counterexample for claim C7: this contract's GET endpoint declares a
`Request` with an object-typed property, yet `validateSchema` accepts
it — no string-compatibility check on query properties exists in
`validateSchema`. -/
theorem claim_C7_counterexample :
    validateSchema c7Counterexample = .ok () ∧
    (∃ e, lookupAssoc c7Counterexample.Endpoints "GET /posts" = some e ∧
      ∃ req, e.Request = some req ∧
        lookupAssoc (req.properties.getD []) "filter" =
          some (.mk (some "object") none none none none none none none none
            none none none none none)) := by
  constructor
  · rfl
  · exact ⟨_, rfl, _, rfl, rfl⟩

/-- Claim C7 (amended): `validateSchema` applies the same per-endpoint
checks regardless of HTTP method — acceptance is equivalent to the meta
check plus, per endpoint: the `Request` (when present) resolves, its
resolved `type` (when present and non-empty) is `"object"`, and the
first path parameter that is `in` the resolved properties object (a
declared property name or an `Object.prototype` key) — if any — is the
empty string, on which the guard `if (collidingParam)` is falsy.  No
scalar or string-compatibility condition on GET/DELETE request
properties is checked. -/
theorem claim_C7_validate_characterization (spec : OneSchemaDefinition) :
    validateSchema spec = .ok () ↔
      (metaSchemaCheck spec = true ∧
        ∀ p ∈ spec.Endpoints,
          endpointCheckOK (spec.Resources.getD [])
            (resolutionFuel (spec.Resources.getD [])) p.1 p.2) :=
  validateSchema_ok_iff spec

/-- Counterexample for claim C5: here the path parameter `id` collides
with a resolved `Request` property, but the `Request` also declares
`type: 'string'`, so validation fails with `NonObjectRequest`, an error
that does not name the colliding parameter. -/
theorem claim_C5_counterexample :
    getPathParams "PUT posts/:id" = some ["id"] ∧
    (∃ e req, lookupAssoc c5Counterexample.Endpoints "PUT posts/:id" = some e ∧
      e.Request = some req ∧
      (req.properties.getD []).map Prod.fst = ["id"]) ∧
    validateSchema c5Counterexample = .error (.nonObjectRequest "PUT posts/:id") := by
  refine ⟨by decide, ⟨_, _, rfl, rfl, by decide⟩, rfl⟩

/-- Claim C5 (amended): when the first path parameter that is `in` the
resolved `Request` properties object (a declared property name or an
`Object.prototype` key) is a non-empty string, validation can never
return `ok`; on the claim's own example `PUT posts/:id` with
`Request.properties = {id, message}` it fails with exactly the
`ParameterCollision` error naming `id` and the endpoint.  (The JS guard
`if (collidingParam)` is falsy on an empty-string first collider, so
that case — and every collision behind it — is accepted.) -/
theorem claim_C5_path_collision :
    (∀ (spec : OneSchemaDefinition) (k : String) (e : EndpointDefinition)
      (req resolved : JSONSchema) (params : List String) (p : String),
      (k, e) ∈ spec.Endpoints →
      e.Request = some req →
      withResolvedDefinitions (resolutionFuel (spec.Resources.getD [])) req
        (spec.Resources.getD []) = .ok resolved →
      getPathParams k = some params →
      params.find? (fun param =>
        (resolved.properties.getD []).any (fun q => q.1 == param) ||
        OBJECT_PROTOTYPE_KEYS.contains param) = some p →
      p ≠ "" →
      validateSchema spec ≠ .ok ()) ∧
    validateSchema putPostsExample = .error (.parameterCollision "id" "PUT posts/:id") := by
  constructor
  · intro spec k e req resolved params p hmem hreq hres hpp hfind hne hok
    rw [validateSchema_ok_iff] at hok
    have := hok.2 (k, e) hmem
    simp only [endpointCheckOK, hreq] at this
    obtain ⟨resolved2, hres2, _, params2, hpp2, hfind2⟩ := this
    rw [hres] at hres2
    cases hres2
    rw [hpp] at hpp2
    cases hpp2
    exact hne (hfind2 p hfind)
  · rfl

/-- Witness for the universal part of claim C5 at the claim's own
example contract. -/
theorem claim_C5_witness :
    (("PUT posts/:id",
      ({ Name := "something"
         Request := some (objectSchema
           [("id", stringTypeSchema), ("message", stringTypeSchema)] none)
         Response := JSONSchema.empty } : EndpointDefinition)) ∈
        putPostsExample.Endpoints) ∧
    validateSchema putPostsExample ≠ .ok () :=
  ⟨by simp [putPostsExample],
    claim_C5_path_collision.1 putPostsExample "PUT posts/:id"
      { Name := "something"
        Request := some (objectSchema
          [("id", stringTypeSchema), ("message", stringTypeSchema)] none)
        Response := JSONSchema.empty }
      (objectSchema [("id", stringTypeSchema), ("message", stringTypeSchema)] none)
      (objectSchema [("id", stringTypeSchema), ("message", stringTypeSchema)] none)
      ["id"] "id"
      (by simp [putPostsExample]) rfl rfl rfl (by decide) (by decide)⟩

/-- The JS truthiness guard traced: in `c5EmptyParamExample` the path
parameters are `""` and `"id"`, both declared as request properties,
and validation nevertheless accepts the contract — `find` returns `""`
first and `if (collidingParam)` is falsy on it, so the `id` collision
behind it is never reported. -/
theorem truthiness_guard_accepts_empty_collider :
    getPathParams "PUT posts/:/:id" = some ["", "id"] ∧
    (∃ e req, lookupAssoc c5EmptyParamExample.Endpoints "PUT posts/:/:id" = some e ∧
      e.Request = some req ∧
      (req.properties.getD []).map Prod.fst = ["", "id"]) ∧
    validateSchema c5EmptyParamExample = .ok () :=
  ⟨rfl, ⟨_, _, rfl, rfl, rfl⟩, rfl⟩

/-- The JS `in` prototype chain traced: `c7ProtoExample`'s only path
parameter `toString` collides with no declared property — the request
declares none at all — yet validation rejects the contract, because
`'toString' in {}` is true through `Object.prototype`. -/
theorem prototype_key_collides :
    (∃ e req, lookupAssoc c7ProtoExample.Endpoints "GET /posts/:toString" = some e ∧
      e.Request = some req ∧ req.properties.getD [] = []) ∧
    validateSchema c7ProtoExample =
      .error (.parameterCollision "toString" "GET /posts/:toString") :=
  ⟨⟨_, _, rfl, rfl, rfl⟩, rfl⟩

/-- Counterexample for claim C8: two distinct endpoints declare the same
`Name` and `validateSchema` accepts the contract — no duplicate-name
check exists in contract validation (the uniqueness check lives in the
router declaration API, `router.ts`). -/
theorem claim_C8_counterexample :
    c8Counterexample.Endpoints.map (fun p => p.2.Name) = ["foo", "foo"] ∧
    c8Counterexample.Endpoints.map Prod.fst = ["GET /a", "GET /b"] ∧
    validateSchema c8Counterexample = .ok () := by
  refine ⟨rfl, rfl, rfl⟩

/-- Claim C8 (amended): `validateSchema` does not inspect endpoint-name
distinctness at all: renaming every endpoint of a valid contract to one
shared (alphanumeric-bearing) name keeps validation succeeding. -/
theorem claim_C8_duplicate_names_accepted :
    ∀ (spec : OneSchemaDefinition) (n : String),
    n.data.any Char.isAlphanum = true →
    validateSchema spec = .ok () →
    validateSchema (withEndpointNames spec n) = .ok () := by
  intro spec n halnum hok
  rw [validateSchema_ok_iff] at hok ⊢
  have hmeta2 : spec.Endpoints.all (fun q =>
      q.2.Name.data.any Char.isAlphanum && q.2.Description.isNone) = true := hok.1
  constructor
  · simp only [metaSchemaCheck, withEndpointNames, List.all_eq_true, List.mem_map]
    rintro e ⟨p, hp, rfl⟩
    have h1 := List.all_eq_true.mp hmeta2 p hp
    rw [Bool.and_eq_true] at h1
    rw [Bool.and_eq_true]
    exact ⟨halnum, h1.2⟩
  · intro p hp
    simp only [withEndpointNames, List.mem_map] at hp
    obtain ⟨q, hq, rfl⟩ := hp
    have := hok.2 q hq
    simp only [endpointCheckOK] at this ⊢
    simpa [withEndpointNames] using this

/-- Witness for claim C8 at the duplicate-name contract. -/
theorem claim_C8_witness :
    ("bar".data.any Char.isAlphanum = true) ∧
    validateSchema c8Counterexample = .ok () ∧
    validateSchema (withEndpointNames c8Counterexample "bar") = .ok () :=
  ⟨by decide, rfl,
    claim_C8_duplicate_names_accepted c8Counterexample "bar" (by decide) rfl⟩

/-- Claim C6: the code applies `withAssumptions` to unwrapped
introspection responses, contradicting the repository's own test
(`does not apply assumptions to introspection responses` in
`meta-schema.test.ts`) and the spec: on the test's own fixture the
loaded result materializes `Request: {}` and rewrites the `Response`
(adding `required` and `additionalProperties: false`), instead of
returning the unwrapped contract unchanged. -/
theorem claim_C6_introspection_assumptions_applied :
    loadSchemaFromFile (.introspection introspectionFixture "mock-service-version")
        DEFAULT_ASSUMPTIONS =
      .ok (withAssumptions introspectionFixture DEFAULT_ASSUMPTIONS) ∧
    (withAssumptions introspectionFixture DEFAULT_ASSUMPTIONS).Endpoints.map
        (fun p => (p.1, p.2.Request.isSome, p.2.Response.required,
          p.2.Response.additionalProperties)) =
      [("GET /posts", true, some ["something"], some false)] ∧
    introspectionFixture.Endpoints.map
        (fun p => (p.1, p.2.Request.isSome, p.2.Response.required,
          p.2.Response.additionalProperties)) =
      [("GET /posts", false, none, none)] := by
  refine ⟨rfl, rfl, rfl⟩

/-- Witness for claim C2 at the spec's composite-schema fixture. -/
theorem claim_C2_witness :
    (c2WitnessContract.Endpoints.map Prod.fst).Nodup ∧
    masterSchema c2WitnessContract =
      some ((masterSchema c2WitnessContract).getD JSONSchema.empty) ∧
    ((masterSchema c2WitnessContract).getD JSONSchema.empty).definitions =
      c2WitnessContract.Resources :=
  ⟨by decide, rfl,
    (claim_C2_composite_schema c2WitnessContract
      ((masterSchema c2WitnessContract).getD JSONSchema.empty) (by decide) rfl).1⟩

theorem mem_nodesList_self (s : JSONSchema) : s ∈ nodesList s := by
  cases s with
  | mk ty rf ds ti op ap en rq props its ao oo alo defs =>
    rw [nodesList.eq_def]
    exact List.mem_cons_self ..

theorem mem_schemaRefs_of_ref {s : JSONSchema} {r : String} (h : s.ref = some r) :
    r ∈ schemaRefs s := by
  rw [schemaRefs, List.mem_filterMap]
  exact ⟨s, mem_nodesList_self s, h⟩

theorem mem_nodesOfProperties {l : List (String × JSONSchema)} {n : String}
    {c : JSONSchema} (hc : (n, c) ∈ l) {x : JSONSchema} (hx : x ∈ nodesList c) :
    x ∈ nodesOfProperties l := by
  induction l with
  | nil => cases hc
  | cons hd tl ih =>
    rw [nodesOfProperties.eq_def]
    rcases List.mem_cons.mp hc with h | h
    · cases hd
      cases h
      exact List.mem_append_left _ hx
    · cases hd
      exact List.mem_append_right _ (ih h)

theorem mem_nodesOfList {l : List JSONSchema} {c : JSONSchema} (hc : c ∈ l)
    {x : JSONSchema} (hx : x ∈ nodesList c) : x ∈ nodesOfList l := by
  induction l with
  | nil => cases hc
  | cons hd tl ih =>
    rw [nodesOfList.eq_def]
    rcases List.mem_cons.mp hc with h | h
    · cases h
      exact List.mem_append_left _ hx
    · exact List.mem_append_right _ (ih h)

theorem nodesList_sub_properties {s : JSONSchema} {l : List (String × JSONSchema)}
    (h : s.properties = some l) {n : String} {c : JSONSchema} (hc : (n, c) ∈ l) :
    ∀ x ∈ nodesList c, x ∈ nodesList s := by
  cases s with
  | mk ty rf ds ti op ap en rq props its ao oo alo defs =>
    simp only [JSONSchema.properties_mk] at h
    subst h
    intro x hx
    rw [nodesList.eq_def]
    refine List.mem_cons_of_mem _ ?_
    exact List.mem_append_left _ (List.mem_append_left _ (List.mem_append_left _
      (List.mem_append_left _ (mem_nodesOfProperties hc hx))))

theorem nodesList_sub_items_single {s : JSONSchema} {c : JSONSchema}
    (h : s.items = some (.inl c)) : ∀ x ∈ nodesList c, x ∈ nodesList s := by
  cases s with
  | mk ty rf ds ti op ap en rq props its ao oo alo defs =>
    simp only [JSONSchema.items_mk] at h
    subst h
    intro x hx
    rw [nodesList.eq_def]
    refine List.mem_cons_of_mem _ ?_
    exact List.mem_append_left _ (List.mem_append_left _ (List.mem_append_left _
      (List.mem_append_right _ hx)))

theorem nodesList_sub_items_list {s : JSONSchema} {l : List JSONSchema}
    (h : s.items = some (.inr l)) {c : JSONSchema} (hc : c ∈ l) :
    ∀ x ∈ nodesList c, x ∈ nodesList s := by
  cases s with
  | mk ty rf ds ti op ap en rq props its ao oo alo defs =>
    simp only [JSONSchema.items_mk] at h
    subst h
    intro x hx
    rw [nodesList.eq_def]
    refine List.mem_cons_of_mem _ ?_
    exact List.mem_append_left _ (List.mem_append_left _ (List.mem_append_left _
      (List.mem_append_right _ (mem_nodesOfList hc hx))))

theorem nodesList_sub_anyOf {s : JSONSchema} {l : List JSONSchema}
    (h : s.anyOf = some l) {c : JSONSchema} (hc : c ∈ l) :
    ∀ x ∈ nodesList c, x ∈ nodesList s := by
  cases s with
  | mk ty rf ds ti op ap en rq props its ao oo alo defs =>
    simp only [JSONSchema.anyOf_mk] at h
    subst h
    intro x hx
    rw [nodesList.eq_def]
    refine List.mem_cons_of_mem _ ?_
    exact List.mem_append_left _ (List.mem_append_left _
      (List.mem_append_right _ (mem_nodesOfList hc hx)))

theorem nodesList_sub_oneOf {s : JSONSchema} {l : List JSONSchema}
    (h : s.oneOf = some l) {c : JSONSchema} (hc : c ∈ l) :
    ∀ x ∈ nodesList c, x ∈ nodesList s := by
  cases s with
  | mk ty rf ds ti op ap en rq props its ao oo alo defs =>
    simp only [JSONSchema.oneOf_mk] at h
    subst h
    intro x hx
    rw [nodesList.eq_def]
    refine List.mem_cons_of_mem _ ?_
    exact List.mem_append_left _ (List.mem_append_right _ (mem_nodesOfList hc hx))

theorem nodesList_sub_allOf {s : JSONSchema} {l : List JSONSchema}
    (h : s.allOf = some l) {c : JSONSchema} (hc : c ∈ l) :
    ∀ x ∈ nodesList c, x ∈ nodesList s := by
  cases s with
  | mk ty rf ds ti op ap en rq props its ao oo alo defs =>
    simp only [JSONSchema.allOf_mk] at h
    subst h
    intro x hx
    rw [nodesList.eq_def]
    refine List.mem_cons_of_mem _ ?_
    exact List.mem_append_right _ (mem_nodesOfList hc hx)

theorem resolvableFrom_mono {definitions : List (String × JSONSchema)}
    {rank : String → Nat} {bound : Nat} {s c : JSONSchema}
    (h : ResolvableFrom definitions rank bound s)
    (hsub : ∀ x ∈ nodesList c, x ∈ nodesList s) :
    ResolvableFrom definitions rank bound c := by
  intro r hr
  apply h
  rw [schemaRefs, List.mem_filterMap] at hr ⊢
  obtain ⟨x, hx, href⟩ := hr
  exact ⟨x, hsub x hx, href⟩

theorem all_nodesOfProperties {l : List (String × JSONSchema)}
    (h : ∀ q ∈ l, refFree q.2 = true) :
    (nodesOfProperties l).all (fun n => n.ref = none) = true := by
  induction l with
  | nil => rw [nodesOfProperties.eq_def]; rfl
  | cons hd tl ih =>
    rw [nodesOfProperties.eq_def, List.all_append]
    have h1 : refFree hd.2 = true := h hd (by simp)
    rw [refFree] at h1
    cases hd
    rw [Bool.and_eq_true]
    exact ⟨h1, ih (fun q hq => h q (by simp [hq]))⟩

theorem all_nodesOfList {l : List JSONSchema}
    (h : ∀ q ∈ l, refFree q = true) :
    (nodesOfList l).all (fun n => n.ref = none) = true := by
  induction l with
  | nil => rw [nodesOfList.eq_def]; rfl
  | cons hd tl ih =>
    rw [nodesOfList.eq_def, List.all_append]
    have h1 : refFree hd = true := h hd (by simp)
    rw [refFree] at h1
    rw [Bool.and_eq_true]
    exact ⟨h1, ih (fun q hq => h q (by simp [hq]))⟩

theorem refFree_mk_of {ty ds ti : Option String} {op ap : Option Bool}
    {en rq : Option (List String)}
    {props : Option (List (String × JSONSchema))}
    {its : Option (JSONSchema ⊕ List JSONSchema)}
    {ao oo alo : Option (List JSONSchema)}
    {defs : Option (List (String × JSONSchema))}
    (hp : ∀ l, props = some l → ∀ q ∈ l, refFree q.2 = true)
    (hi1 : ∀ x, its = some (.inl x) → refFree x = true)
    (hi2 : ∀ l, its = some (.inr l) → ∀ q ∈ l, refFree q = true)
    (ha : ∀ l, ao = some l → ∀ q ∈ l, refFree q = true)
    (ho : ∀ l, oo = some l → ∀ q ∈ l, refFree q = true)
    (hl : ∀ l, alo = some l → ∀ q ∈ l, refFree q = true) :
    refFree (.mk ty none ds ti op ap en rq props its ao oo alo defs) = true := by
  rw [refFree, nodesList.eq_def, List.all_cons]
  rw [Bool.and_eq_true]
  constructor
  · simp
  · rw [List.all_append, List.all_append, List.all_append, List.all_append]
    rw [Bool.and_eq_true, Bool.and_eq_true, Bool.and_eq_true, Bool.and_eq_true]
    refine ⟨⟨⟨⟨?_, ?_⟩, ?_⟩, ?_⟩, ?_⟩
    · cases props with
      | none => rfl
      | some l => exact all_nodesOfProperties (hp l rfl)
    · cases its with
      | none => rfl
      | some i =>
        cases i with
        | inl x =>
          have := hi1 x rfl
          rw [refFree] at this
          exact this
        | inr l => exact all_nodesOfList (hi2 l rfl)
    · cases ao with
      | none => rfl
      | some l => exact all_nodesOfList (ha l rfl)
    · cases oo with
      | none => rfl
      | some l => exact all_nodesOfList (ho l rfl)
    · cases alo with
      | none => rfl
      | some l => exact all_nodesOfList (hl l rfl)

theorem transformPropertiesE_ok {T : JSONSchema → Except OneSchemaError JSONSchema}
    : ∀ {l : List (String × JSONSchema)},
    (∀ p ∈ l, ∃ out, transformJSONSchemaE p.2 T = .ok out ∧ refFree out = true) →
    ∃ l', transformPropertiesE l T = .ok l' ∧ ∀ q ∈ l', refFree q.2 = true := by
  intro l
  induction l with
  | nil => intro _; exact ⟨[], by rw [transformPropertiesE], by simp⟩
  | cons hd tl ih =>
    intro h
    obtain ⟨out, hout, hfree⟩ := h hd (by simp)
    obtain ⟨l', hl', hfree'⟩ := ih (fun p hp => h p (by simp [hp]))
    cases hd with
    | mk n c =>
      refine ⟨(n, out) :: l', ?_, ?_⟩
      · rw [transformPropertiesE, hout, hl']
        rfl
      · intro q hq
        rcases List.mem_cons.mp hq with h2 | h2
        · subst h2; exact hfree
        · exact hfree' q h2

theorem transformSchemaListE_ok {T : JSONSchema → Except OneSchemaError JSONSchema}
    : ∀ {l : List JSONSchema},
    (∀ p ∈ l, ∃ out, transformJSONSchemaE p T = .ok out ∧ refFree out = true) →
    ∃ l', transformSchemaListE l T = .ok l' ∧ ∀ q ∈ l', refFree q = true := by
  intro l
  induction l with
  | nil => intro _; exact ⟨[], by rw [transformSchemaListE], by simp⟩
  | cons hd tl ih =>
    intro h
    obtain ⟨out, hout, hfree⟩ := h hd (by simp)
    obtain ⟨l', hl', hfree'⟩ := ih (fun p hp => h p (by simp [hp]))
    refine ⟨out :: l', ?_, ?_⟩
    · rw [transformSchemaListE, hout, hl']
      rfl
    · intro q hq
      rcases List.mem_cons.mp hq with h2 | h2
      · subst h2; exact hfree
      · exact hfree' q h2


set_option maxHeartbeats 1000000 in
theorem transformJSONSchemaE_mk (ty rf ds ti : Option String) (op ap : Option Bool)
    (en rq : Option (List String))
    (props : Option (List (String × JSONSchema)))
    (its : Option (JSONSchema ⊕ List JSONSchema))
    (ao oo alo : Option (List JSONSchema))
    (defs : Option (List (String × JSONSchema)))
    (T : JSONSchema → Except OneSchemaError JSONSchema) :
    transformJSONSchemaE (.mk ty rf ds ti op ap en rq props its ao oo alo defs) T =
      Except.bind
        (match props with
         | none => Except.ok none
         | some l => Except.map some (transformPropertiesE l T))
        (fun props' =>
      Except.bind
        (match its with
         | none => Except.ok none
         | some (Sum.inl x) => Except.map (fun v => some (Sum.inl v)) (transformJSONSchemaE x T)
         | some (Sum.inr l) => Except.map (fun v => some (Sum.inr v)) (transformSchemaListE l T))
        (fun its' =>
      Except.bind
        (match ao with
         | none => Except.ok none
         | some l => Except.map some (transformSchemaListE l T))
        (fun ao' =>
      Except.bind
        (match oo with
         | none => Except.ok none
         | some l => Except.map some (transformSchemaListE l T))
        (fun oo' =>
      Except.bind
        (match alo with
         | none => Except.ok none
         | some l => Except.map some (transformSchemaListE l T))
        (fun alo' =>
      T (.mk ty rf ds ti op ap en rq props' its' ao' oo' alo' defs)))))) := by
  rw [transformJSONSchemaE.eq_def]

set_option maxHeartbeats 1000000 in
theorem resolve_ranked (definitions : List (String × JSONSchema))
    (rank : String → Nat) (hr : RankedDefs definitions rank) :
    ∀ bound : Nat, ∀ s : JSONSchema, ∀ fuel : Nat, bound ≤ fuel →
    ResolvableFrom definitions rank bound s →
    ∃ out, transformJSONSchemaE s (resolverStep definitions (fun resource =>
        withResolvedDefinitions fuel resource definitions)) = .ok out ∧
      refFree out = true := by
  intro bound
  induction bound using Nat.strong_induction_on with
  | _ bound ih_bound =>
    intro s
    induction s using JSONSchema.sizeInduction with
    | h s ih_s =>
      intro fuel hfuel hres
      cases s with
      | mk ty rf ds ti op ap en rq props its ao oo alo defs =>
        have hprops : ∃ props',
            (match props with
             | none => Except.ok none
             | some l => Except.map some (transformPropertiesE l (resolverStep definitions
                 (fun resource => withResolvedDefinitions fuel resource definitions)))) =
              .ok props' ∧
            ∀ l, props' = some l → ∀ q ∈ l, refFree q.2 = true := by
          cases props with
          | none => exact ⟨none, rfl, by simp⟩
          | some l =>
            obtain ⟨l', hl', hfree⟩ := transformPropertiesE_ok (fun p hp =>
              ih_s p.2 (sizeOf_of_properties
                (s := .mk ty rf ds ti op ap en rq (some l) its ao oo alo defs) rfl hp)
                fuel hfuel
                (resolvableFrom_mono hres (nodesList_sub_properties
                  (s := .mk ty rf ds ti op ap en rq (some l) its ao oo alo defs) rfl
                  (n := p.1) (by simpa using hp))))
            refine ⟨some l', (congrArg (Except.map some) hl').trans rfl, ?_⟩
            rintro l2 h2 q hq
            cases h2
            exact hfree q hq
        have hits : ∃ its',
            (match its with
             | none => Except.ok none
             | some (Sum.inl x) => Except.map (fun v => some (Sum.inl v))
                 (transformJSONSchemaE x (resolverStep definitions
                   (fun resource => withResolvedDefinitions fuel resource definitions)))
             | some (Sum.inr l) => Except.map (fun v => some (Sum.inr v))
                 (transformSchemaListE l (resolverStep definitions
                   (fun resource => withResolvedDefinitions fuel resource definitions)))) =
              .ok its' ∧
            (∀ x, its' = some (Sum.inl x) → refFree x = true) ∧
            (∀ l, its' = some (Sum.inr l) → ∀ q ∈ l, refFree q = true) := by
          cases its with
          | none => exact ⟨none, rfl, by simp, by simp⟩
          | some i =>
            cases i with
            | inl x =>
              obtain ⟨out, hout, hfree⟩ := ih_s x (sizeOf_of_items_single
                (s := .mk ty rf ds ti op ap en rq props (some (.inl x)) ao oo alo defs) rfl)
                fuel hfuel
                (resolvableFrom_mono hres (nodesList_sub_items_single
                  (s := .mk ty rf ds ti op ap en rq props (some (.inl x)) ao oo alo defs) rfl))
              refine ⟨some (Sum.inl out),
                (congrArg (Except.map (fun v => some (Sum.inl v))) hout).trans rfl, ?_, by simp⟩
              rintro x2 h2
              cases h2
              exact hfree
            | inr l =>
              obtain ⟨l', hl', hfree⟩ := transformSchemaListE_ok (fun p hp =>
                ih_s p (sizeOf_of_items_list
                  (s := .mk ty rf ds ti op ap en rq props (some (.inr l)) ao oo alo defs) rfl hp)
                  fuel hfuel
                  (resolvableFrom_mono hres (nodesList_sub_items_list
                    (s := .mk ty rf ds ti op ap en rq props (some (.inr l)) ao oo alo defs) rfl hp)))
              refine ⟨some (Sum.inr l'),
                (congrArg (Except.map (fun v => some (Sum.inr v))) hl').trans rfl, by simp, ?_⟩
              rintro l2 h2 q hq
              cases h2
              exact hfree q hq
        have hao : ∃ ao',
            (match ao with
             | none => Except.ok none
             | some l => Except.map some (transformSchemaListE l (resolverStep definitions
                 (fun resource => withResolvedDefinitions fuel resource definitions)))) =
              .ok ao' ∧
            ∀ l, ao' = some l → ∀ q ∈ l, refFree q = true := by
          cases ao with
          | none => exact ⟨none, rfl, by simp⟩
          | some l =>
            obtain ⟨l', hl', hfree⟩ := transformSchemaListE_ok (fun p hp =>
              ih_s p (sizeOf_of_anyOf
                (s := .mk ty rf ds ti op ap en rq props its (some l) oo alo defs) rfl hp)
                fuel hfuel
                (resolvableFrom_mono hres (nodesList_sub_anyOf
                  (s := .mk ty rf ds ti op ap en rq props its (some l) oo alo defs) rfl hp)))
            refine ⟨some l', (congrArg (Except.map some) hl').trans rfl, ?_⟩
            rintro l2 h2 q hq
            cases h2
            exact hfree q hq
        have hoo : ∃ oo',
            (match oo with
             | none => Except.ok none
             | some l => Except.map some (transformSchemaListE l (resolverStep definitions
                 (fun resource => withResolvedDefinitions fuel resource definitions)))) =
              .ok oo' ∧
            ∀ l, oo' = some l → ∀ q ∈ l, refFree q = true := by
          cases oo with
          | none => exact ⟨none, rfl, by simp⟩
          | some l =>
            obtain ⟨l', hl', hfree⟩ := transformSchemaListE_ok (fun p hp =>
              ih_s p (sizeOf_of_oneOf
                (s := .mk ty rf ds ti op ap en rq props its ao (some l) alo defs) rfl hp)
                fuel hfuel
                (resolvableFrom_mono hres (nodesList_sub_oneOf
                  (s := .mk ty rf ds ti op ap en rq props its ao (some l) alo defs) rfl hp)))
            refine ⟨some l', (congrArg (Except.map some) hl').trans rfl, ?_⟩
            rintro l2 h2 q hq
            cases h2
            exact hfree q hq
        have halo : ∃ alo',
            (match alo with
             | none => Except.ok none
             | some l => Except.map some (transformSchemaListE l (resolverStep definitions
                 (fun resource => withResolvedDefinitions fuel resource definitions)))) =
              .ok alo' ∧
            ∀ l, alo' = some l → ∀ q ∈ l, refFree q = true := by
          cases alo with
          | none => exact ⟨none, rfl, by simp⟩
          | some l =>
            obtain ⟨l', hl', hfree⟩ := transformSchemaListE_ok (fun p hp =>
              ih_s p (sizeOf_of_allOf
                (s := .mk ty rf ds ti op ap en rq props its ao oo (some l) defs) rfl hp)
                fuel hfuel
                (resolvableFrom_mono hres (nodesList_sub_allOf
                  (s := .mk ty rf ds ti op ap en rq props its ao oo (some l) defs) rfl hp)))
            refine ⟨some l', (congrArg (Except.map some) hl').trans rfl, ?_⟩
            rintro l2 h2 q hq
            cases h2
            exact hfree q hq
        obtain ⟨props', hpeq, hpfree⟩ := hprops
        obtain ⟨its', hieq, hifree1, hifree2⟩ := hits
        obtain ⟨ao', haeq, hafree⟩ := hao
        obtain ⟨oo', hoeq, hofree⟩ := hoo
        obtain ⟨alo', hleq, hlfree⟩ := halo
        rw [transformJSONSchemaE_mk]
        rw [hpeq, hieq, haeq, hoeq, hleq]
        simp only [Except.bind]
        rw [resolverStep]
        simp only [JSONSchema.ref_mk]
        cases rf with
        | none =>
          refine ⟨_, rfl, ?_⟩
          exact refFree_mk_of hpfree hifree1 hifree2 hafree hofree hlfree
        | some r =>
          have hrr := hres r (mem_schemaRefs_of_ref
            (s := .mk ty (some r) ds ti op ap en rq props its ao oo alo defs) rfl)
          obtain ⟨hne, hrn, ⟨res, hlook⟩, hrank⟩ := hrr
          simp only [hne, hrn, hlook]
          have hfuelpos : 1 ≤ fuel := le_trans (Nat.succ_le_of_lt
            (Nat.lt_of_le_of_lt (Nat.zero_le _) hrank)) hfuel
          cases fuel with
          | zero => omega
          | succ f =>
            rw [withResolvedDefinitions]
            exact ih_bound (rank (refResourceName r)) (by omega) res f (by omega)
              (hr _ res hlook)

theorem cycle_never_resolves :
    ∀ fuel, withResolvedDefinitions fuel (refOnlySchema "#/definitions/A") c10CycleDefs =
      .error .outOfFuel := by
  intro fuel
  induction fuel with
  | zero => rfl
  | succ f ih => exact ih

/-- Claim C10: `withResolvedDefinitions` terminates with a reference-free
result on every input whose reference graph admits a topological ranking
(equivalently, whose reachable reference graph is acyclic and fully
resolvable): some fuel bound suffices, and any larger fuel does too.
Acyclicity is necessary: on the self-referencing registry
`A -> #/definitions/A` the resolver (which performs no cycle detection)
exhausts every amount of fuel, i.e. the JS original never terminates. -/
theorem claim_C10_resolution_terminates_iff_acyclic :
    (∀ (definitions : List (String × JSONSchema)) (rank : String → Nat) (bound : Nat)
      (root : JSONSchema),
      RankedDefs definitions rank →
      ResolvableFrom definitions rank bound root →
      ∀ fuel, bound + 1 ≤ fuel →
      ∃ out, withResolvedDefinitions fuel root definitions = .ok out ∧
        refFree out = true) ∧
    (∀ fuel, withResolvedDefinitions fuel (refOnlySchema "#/definitions/A") c10CycleDefs =
      .error .outOfFuel) := by
  constructor
  · intro definitions rank bound root hranked hres fuel hfuel
    cases fuel with
    | zero => omega
    | succ f =>
      rw [withResolvedDefinitions]
      exact resolve_ranked definitions rank hranked bound root f (by omega) hres
  · exact cycle_never_resolves

/-- Witness for claim C10 on a concrete acyclic registry
(`root -> B`, `B` a plain string schema). -/
theorem claim_C10_witness :
    RankedDefs c10AcyclicDefs c10Rank ∧
    ResolvableFrom c10AcyclicDefs c10Rank 1 (refOnlySchema "#/definitions/B") ∧
    (1 + 1 ≤ 2) ∧
    ∃ out, withResolvedDefinitions 2 (refOnlySchema "#/definitions/B") c10AcyclicDefs =
      .ok out ∧ refFree out = true := by
  have hranked : RankedDefs c10AcyclicDefs c10Rank := by
    intro n res hlook
    by_cases h : n = "B"
    · subst h
      have : res = stringTypeSchema := by
        simpa [c10AcyclicDefs, lookupAssoc] using hlook.symm
      subst this
      intro r hr
      rw [show schemaRefs stringTypeSchema = [] from rfl] at hr
      cases hr
    · rw [show lookupAssoc c10AcyclicDefs n = if "B" = n then some stringTypeSchema else none
          from rfl] at hlook
      rw [if_neg (fun hc => h hc.symm)] at hlook
      cases hlook
  have hres : ResolvableFrom c10AcyclicDefs c10Rank 1 (refOnlySchema "#/definitions/B") := by
    intro r hr
    rw [show schemaRefs (refOnlySchema "#/definitions/B") = ["#/definitions/B"] from rfl] at hr
    rcases List.mem_singleton.mp hr with rfl
    refine ⟨by decide, by decide, ⟨stringTypeSchema, rfl⟩, by decide⟩
  exact ⟨hranked, hres, by omega,
    claim_C10_resolution_terminates_iff_acyclic.1 c10AcyclicDefs c10Rank 1
      (refOnlySchema "#/definitions/B") hranked hres 2 (by omega)⟩

